import Mathlib

/-!
Verification of the halite3-rust-starter client against its specification.

The definitions below are a shallow embedding of the Rust sources:
`src/hlt/board.rs`, `src/hlt/mod.rs`, `src/hlt/constants.rs`,
`src/hlt/engine/mod.rs`, `src/hlt/engine/recv.rs`, `src/hlt/engine/send.rs`.
Rust `isize` is embedded as `Int` (no arithmetic here approaches the
machine-word bounds), `usize` as `Nat`, fallible or panicking code as
`Option`/`Except`, and the `HashMap`s of the `Game` as association lists
(`HashMap` iteration order is unspecified in Rust; the embedding fixes the
list order, and every property proved below is insensitive to that order).
The newtype identifiers (`PlayerId`, `ShipId`, `DropoffId`, `ShipyardId`)
are embedded as their underlying `usize`, i.e. `Nat`.
-/

namespace Hlt

/-! ### Coordinate math (src/hlt/board.rs)

Rust's `%` on `isize` is truncating remainder, i.e. `Int.tmod`;
`isize::signum` is `Int.sign`. -/

/-- `normalize` from board.rs: `((value % dimension) + dimension) % dimension`. -/
def normalize (value dimension : Int) : Int :=
  ((value.tmod dimension) + dimension).tmod dimension

/-- `invert` from board.rs:
`let value = value % dimension; value + -value.signum() * dimension`. -/
def invert (value dimension : Int) : Int :=
  let value := value.tmod dimension
  value + -value.sign * dimension

/-- `Position` from board.rs. -/
structure Position where
  x : Int
  y : Int
  deriving DecidableEq, Repr

/-- `Offset` from board.rs. -/
structure Offset where
  dx : Int
  dy : Int
  deriving DecidableEq, Repr

namespace Offset

/-- `Offset::len`: `(self.dx.abs() + self.dy.abs()) as usize`. -/
def len (o : Offset) : Nat :=
  o.dx.natAbs + o.dy.natAbs

/-- `Offset::inverted_dx`. -/
def inverted_dx (o : Offset) (width : Int) : Offset :=
  ⟨invert o.dx width, o.dy⟩

/-- `Offset::inverted_dy`. -/
def inverted_dy (o : Offset) (height : Int) : Offset :=
  ⟨o.dx, invert o.dy height⟩

/-- `Offset::inverted` (both axes). -/
def inverted (o : Offset) (width height : Int) : Offset :=
  ⟨invert o.dx width, invert o.dy height⟩

/-- Rust `Iterator::min_by_key` keeps the first element among equal keys:
the accumulator is replaced only when the new element's key is strictly
smaller. -/
def minByLen (acc : Offset) : List Offset → Offset
  | [] => acc
  | o :: rest => minByLen (if o.len < acc.len then o else acc) rest

/-- `Offset::reduce`: minimum over
`[self.inverted(w, h), self.inverted_dx(w), self.inverted_dy(h), self]`
by `min_by_key(|o| o.len())`. -/
def reduce (o : Offset) (width height : Int) : Offset :=
  minByLen (o.inverted width height) [o.inverted_dx width, o.inverted_dy height, o]

end Offset

/-- `Direction` from mod.rs. -/
inductive Direction where
  | North
  | East
  | South
  | West
  deriving DecidableEq, Repr

/-- `From<Direction> for Offset` from board.rs. -/
def Direction.toOffset : Direction → Offset
  | .North => ⟨0, -1⟩
  | .East => ⟨1, 0⟩
  | .South => ⟨0, 1⟩
  | .West => ⟨-1, 0⟩

/-- `Position + Offset` (no wrap-around applied). -/
def Position.addOffset (p : Position) (o : Offset) : Position :=
  ⟨p.x + o.dx, p.y + o.dy⟩

/-- `Position + Direction`. -/
def Position.addDir (p : Position) (d : Direction) : Position :=
  p.addOffset d.toOffset

/-- `Position::normalized`. -/
def Position.normalized (p : Position) (width height : Int) : Position :=
  ⟨normalize p.x width, normalize p.y height⟩

/-- Modelled from the spec's words (the refinement target of C3, as the claim
states it): select among the four topologically equivalent candidates by the
evaluation order direct → x-wrapped → y-wrapped → both-wrapped, the first
candidate of minimum Manhattan length winning. -/
def specReduceDirectFirst (o : Offset) (width height : Int) : Offset :=
  let c0 := o
  let c1 := o.inverted_dx width
  let c2 := o.inverted_dy height
  let c3 := o.inverted width height
  let m := min (min c0.len c1.len) (min c2.len c3.len)
  if c0.len = m then c0
  else if c1.len = m then c1
  else if c2.len = m then c2
  else c3

/-- The selection the code actually makes: evaluation order both-wrapped →
x-wrapped → y-wrapped → direct, the first candidate of minimum Manhattan
length winning (the array in `Offset::reduce` lists the candidates in this
order and `min_by_key` returns the first minimum). -/
def specReduceInvertedFirst (o : Offset) (width height : Int) : Offset :=
  let c0 := o.inverted width height
  let c1 := o.inverted_dx width
  let c2 := o.inverted_dy height
  let c3 := o
  let m := min (min c0.len c1.len) (min c2.len c3.len)
  if c0.len = m then c0
  else if c1.len = m then c1
  else if c2.len = m then c2
  else c3

/-! ### Cells and the Board (src/hlt/board.rs)

The Rust `Board` stores `Vec<Vec<Cell>>` indexed as `cells[y][x]` after
normalizing the position.  The embedding keeps the nested-list layout; reads
use `List.getD` with a default cell (the Rust code would panic on an
out-of-range raw index, which well-formed boards never produce). -/

/-- `Structure` from board.rs (tagged Shipyard/Dropoff identifier). -/
inductive Structure where
  | Shipyard (id : Nat)
  | Dropoff (id : Nat)
  deriving DecidableEq, Repr

/-- `Cell` from board.rs.  The Rust field `structure` is a Lean keyword and
is embedded as `struct`. -/
structure Cell where
  position : Position
  struct : Option Structure
  ship : Option Nat
  halite : Nat
  deriving DecidableEq, Repr

/-- `Cell::new`. -/
def Cell.new (position : Position) (halite : Nat) : Cell :=
  ⟨position, none, none, halite⟩

/-- `Cell::is_occupied`. -/
def Cell.is_occupied (c : Cell) : Bool :=
  c.ship.isSome

/-- `Cell::has_structure`. -/
def Cell.has_structure (c : Cell) : Bool :=
  c.struct.isSome

/-- Replace the element at one index of a list, leaving everything else
unchanged (the effect of a `Vec` index-assignment). -/
def modifyIdx (f : α → α) : Nat → List α → List α
  | _, [] => []
  | 0, a :: as => f a :: as
  | n + 1, a :: as => a :: modifyIdx f n as

/-- `Board` from board.rs. -/
structure Board where
  width : Int
  height : Int
  cells : List (List Cell)
  deriving DecidableEq, Repr

/-- `Board::new`: `height` rows of `width` cells, all zero halite. -/
def Board.new (width height : Int) : Board :=
  ⟨width, height,
    (List.range height.toNat).map fun y =>
      (List.range width.toNat).map fun x => Cell.new ⟨(x : Int), (y : Int)⟩ 0⟩

/-- `Index<Position> for Board`: normalize, then `cells[y][x]`. -/
def Board.get (b : Board) (p : Position) : Cell :=
  let n := p.normalized b.width b.height
  (b.cells.getD n.y.toNat []).getD n.x.toNat (Cell.new ⟨0, 0⟩ 0)

/-- `IndexMut<Position> for Board` followed by a field assignment:
normalize, then update `cells[y][x]` in place. -/
def Board.modifyCell (b : Board) (p : Position) (f : Cell → Cell) : Board :=
  let n := p.normalized b.width b.height
  { b with cells := modifyIdx (fun row => modifyIdx f n.x.toNat row) n.y.toNat b.cells }

/-- The double loop at the top of `Board::update_from_engine` that sets every
cell's `ship` to `None`. -/
def Board.clearShips (b : Board) : Board :=
  { b with cells := b.cells.map fun row => row.map fun c => { c with ship := none } }

/-- `Board::update_from_engine` (recv.rs): clear all ship occupancy, then
apply the changed-cell halite updates in order. -/
def Board.update_from_engine (b : Board) (updates : List (Position × Nat)) : Board :=
  updates.foldl (fun b u => b.modifyCell u.1 fun c => { c with halite := u.2 }) b.clearShips

/-! ### Entities and the Game (src/hlt/mod.rs) -/

/-- `Ship` from mod.rs. -/
structure Ship where
  id : Nat
  player_id : Nat
  position : Position
  halite : Nat
  deriving DecidableEq, Repr

/-- `Dropoff` from mod.rs. -/
structure Dropoff where
  id : Nat
  player_id : Nat
  position : Position
  deriving DecidableEq, Repr

/-- `Shipyard` from mod.rs. -/
structure Shipyard where
  id : Nat
  player_id : Nat
  position : Position
  deriving DecidableEq, Repr

/-- `Player` from mod.rs. -/
structure Player where
  id : Nat
  shipyard : Shipyard
  ship_ids : List Nat
  dropoff_ids : List Nat
  halite : Nat
  deriving DecidableEq, Repr

/-- `Command` from mod.rs. -/
inductive Command where
  | Spawn
  | ConvertToDropoff (id : Nat)
  | Collect (id : Nat)
  | Move (id : Nat) (d : Direction)
  deriving DecidableEq, Repr

/-- `HashMap` lookup on the association-list embedding. -/
def mapLookup (k : Nat) : List (Nat × α) → Option α
  | [] => none
  | e :: rest => if e.1 = k then some e.2 else mapLookup k rest

/-- `HashMap::insert` on the association-list embedding: replace the entry
with the same key if there is one, otherwise append. -/
def mapInsert (k : Nat) (v : α) (m : List (Nat × α)) : List (Nat × α) :=
  if (mapLookup k m).isSome then m.map fun e => if e.1 = k then (k, v) else e
  else m ++ [(k, v)]

/-- `HashMap::keys().max()` on the association-list embedding. -/
def maxKey : List (Nat × α) → Option Nat
  | [] => none
  | e :: rest =>
    match maxKey rest with
    | none => some e.1
    | some m => some (max e.1 m)

/-- The well-formedness the Rust `Vec<Vec<Cell>>` layout guarantees by
construction: `height` rows of `width` cells each. -/
def Board.wellFormed (b : Board) : Prop :=
  b.cells.length = b.height.toNat ∧ ∀ row ∈ b.cells, row.length = b.width.toNat

/-- The `if let Some(ship_id) = self.ships.keys().max()` id choice of
`Game::spawn_ship`: one greater than the maximum ship id, or 0 on an empty
map. -/
def nextShipId (ships : List (Nat × Ship)) : Nat :=
  match maxKey ships with
  | some m => m + 1
  | none => 0

/-- `Game` from mod.rs. -/
structure Game where
  my_id : Nat
  board : Board
  players : List (Nat × Player)
  ships : List (Nat × Ship)
  dropoffs : List (Nat × Dropoff)
  commands : List Command
  turn : Nat
  deriving DecidableEq, Repr

/-- `Game::spawn_ship` (mod.rs): next ship id is `max key + 1` (or 0 on an
empty map); the new ship is placed at our shipyard with zero halite, stamped
onto the board, inserted into the ship map, and a `Spawn` command is queued.
`self.me()` indexes the player map and panics when absent, embedded as
`none`. -/
def Game.spawn_ship (g : Game) : Option Game :=
  match mapLookup g.my_id g.players with
  | none => none
  | some me =>
    let id : Nat := nextShipId g.ships
    let position := me.shipyard.position
    let ship : Ship := ⟨id, g.my_id, position, 0⟩
    some { g with
      board := g.board.modifyCell position fun c => { c with ship := some ship.id },
      ships := mapInsert ship.id ship g.ships,
      commands := g.commands ++ [Command.Spawn] }

/-- The comparison under `cells.sort_by_key(|(_, c)| !c.halite)`: sorting by
the bitwise complement of the halite in ascending order is sorting by halite
in descending order, and Rust's `sort_by_key` is stable, as is
`List.mergeSort`. -/
def navLe (a b : Option Direction × Cell) : Bool :=
  b.2.halite ≤ a.2.halite

/-- `Game::navigate_to_halite` (mod.rs): the four adjacent cells (paired
with their direction, in the order North, East, South, West) plus the
current cell (paired with `None`), stably sorted by descending halite; the
first unoccupied entry's direction is returned (`None` both for "stay" and
for "no unoccupied candidate").  `self.ships[&ship_id]` panics when the id
is absent, embedded as the outer `none`. -/
def Game.navigate_to_halite (g : Game) (ship_id : Nat) : Option (Option Direction) :=
  match mapLookup ship_id g.ships with
  | none => none
  | some ship =>
    let cells : List (Option Direction × Cell) :=
      [(some Direction.North, g.board.get (ship.position.addDir .North)),
       (some Direction.East, g.board.get (ship.position.addDir .East)),
       (some Direction.South, g.board.get (ship.position.addDir .South)),
       (some Direction.West, g.board.get (ship.position.addDir .West)),
       (none, g.board.get ship.position)]
    some
      (match (cells.mergeSort navLe).find? (fun p => !p.2.is_occupied) with
       | some p => p.1
       | none => none)

/-- The position of each direction in the candidate order North, East,
South, West of `Direction::all()`. -/
def dirIdx : Direction → Nat
  | .North => 0
  | .East => 1
  | .South => 2
  | .West => 3

/-! ### The token stream reader (src/hlt/engine/mod.rs) -/

/-- The mutable state of `Engine`: the pending-token queue, plus the not yet
consumed input lines (standard input embedded as a list of lines). -/
structure EngineState where
  tokens : List String
  lines : List String
  deriving DecidableEq, Repr

/-- Helper for `splitWhitespace`: walk the characters, accumulating the
current (reversed) word and emitting it at each whitespace boundary. -/
def splitWSAux : List Char → List Char → List String
  | [], cur => if cur.isEmpty then [] else [String.mk cur.reverse]
  | c :: rest, cur =>
    if c.isWhitespace then
      if cur.isEmpty then splitWSAux rest []
      else String.mk cur.reverse :: splitWSAux rest []
    else splitWSAux rest (c :: cur)

/-- `str::split_whitespace`: the maximal whitespace-free runs of the string,
in order — whitespace-only input yields no tokens. -/
def splitWhitespace (s : String) : List String :=
  splitWSAux s.toList []

/-- The `while self.tokens.len() == 0` loop of `Engine::next`: as long as
the queue is empty, read one line, split it on whitespace and append all
resulting tokens.  At end of input the Rust `read_line` keeps returning an
empty buffer and the loop never terminates; the embedding returns the empty
queue instead, which `Engine.next` maps to `none`. -/
def refill (tokens : List String) : List String → List String × List String
  | [] => (tokens, [])
  | l :: rest =>
    if tokens.isEmpty then refill (tokens ++ splitWhitespace l) rest
    else (tokens, l :: rest)

/-- `Engine::next` (engine/mod.rs): refill while the queue is empty, then
pop the first pending token (`self.tokens.remove(0)`).  The popped token is
returned as a string; parsing it into the target type is the caller's
`T::from_str` and is not needed by the properties below. -/
def Engine.next (st : EngineState) : Option (String × EngineState) :=
  match refill st.tokens st.lines with
  | (t :: rest, lines) => some (t, ⟨rest, lines⟩)
  | ([], _) => none

/-! ### The command encoder (src/hlt/engine/send.rs)

send.rs names the variants `ToDropoff` and `Action(id, Move dir | Collect)`;
they are the `ConvertToDropoff`, `Move` and `Collect` variants of the
`Command` enum in mod.rs, and the emitted grammar is as below. -/

/-- The direction character of the `m <id> {n|e|s|w}` form. -/
def Direction.sendChar : Direction → Char
  | .North => 'n'
  | .East => 'e'
  | .South => 's'
  | .West => 'w'

/-- `Engine::print`: `print!("{} ", obj)` — the printed text is the object's
display form followed by one space. -/
def Engine.printString (s : String) : String :=
  s ++ " "

/-- The `match` inside `ToEngine for &Command`, before `+ " "` is appended. -/
def Command.fmtString : Command → String
  | .Spawn => "g"
  | .ConvertToDropoff id => "c " ++ toString id
  | .Collect id => "m " ++ toString id ++ " o"
  | .Move id d => "m " ++ toString id ++ " " ++ toString d.sendChar

/-- `ToEngine for &Command` composed with `Engine::print`: the text that one
command contributes to the output stream.  Note the `match` result has `" "`
appended and `print!("{} ", _)` then appends a second space. -/
def Command.send_to_engine (c : Command) : String :=
  Engine.printString (c.fmtString ++ " ")

/-! ### The constants store (src/hlt/constants.rs) -/

/-- `Constants` from constants.rs (all 30 fields; `f64` embedded as
`Float`). -/
structure Constants where
  capture_enabled : Bool
  capture_radius : Nat
  default_map_height : Nat
  default_map_width : Nat
  dropoff_cost : Nat
  dropoff_penalty_ratio : Nat
  extract_ratio : Nat
  factor_exp_1 : Float
  factor_exp_2 : Float
  initial_halite : Nat
  inspiration_enabled : Bool
  inspiration_radius : Nat
  inspiration_ship_count : Nat
  inspired_bonus_multiplier : Float
  inspired_extract_ratio : Nat
  inspired_move_cost_ratio : Nat
  max_cell_production : Nat
  max_halite : Nat
  max_players : Nat
  max_turns : Nat
  max_turn_threshold : Nat
  min_cell_production : Nat
  min_turns : Nat
  min_turn_threshold : Nat
  move_cost_ratio : Nat
  new_entity_halite_cost : Nat
  persistence : Float
  ships_above_for_capture : Nat
  strict_errors : Bool
  game_seed : Nat

/-- `constants::set`: panics (`Except.error`) when the process-wide slot is
already occupied, otherwise stores the record. -/
def constantsSet (st : Option Constants) (c : Constants) : Except String (Option Constants) :=
  match st with
  | some _ => .error "constants cannot be set a second time"
  | none => .ok (some c)

/-- `constants::get`: panics (`Except.error`) when the slot is still empty,
otherwise returns the stored record. -/
def constantsGet (st : Option Constants) : Except String Constants :=
  match st with
  | some c => .ok c
  | none => .error "constants were accessed before being set"

/-- One call against the process-wide constants slot. -/
inductive ConstOp where
  | setOp (c : Constants)
  | getOp

/-- Run a sequence of `set`/`get` calls against the slot, starting from a
given state; a panic aborts the rest of the sequence.  Returns the final
state and the list of values the `get` calls returned. -/
def runConstOps : Option Constants → List ConstOp → Except String (Option Constants × List Constants)
  | st, [] => .ok (st, [])
  | st, .setOp c :: rest =>
    match constantsSet st c with
    | .error e => .error e
    | .ok st' => runConstOps st' rest
  | st, .getOp :: rest =>
    match constantsGet st with
    | .error e => .error e
    | .ok c =>
      match runConstOps st rest with
      | .error e => .error e
      | .ok (st', gets) => .ok (st', c :: gets)

/-! ### The turn-state reconciler (src/hlt/engine/recv.rs)

`Game::update_from_engine` reads the turn dump token by token; the embedding
takes the dump pre-structured (one record per decoded entity, in the order
the tokens are consumed).  The loop over players runs `self.players.len()`
times in the source; the embedding folds over the dump's section list, which
is the structured image of exactly those reads. -/

/-- One ship line of the dump: `id x y halite`. -/
structure ShipDump where
  id : Nat
  position : Position
  halite : Nat
  deriving DecidableEq, Repr

/-- One dropoff line of the dump: `id x y`. -/
structure DropoffDump where
  id : Nat
  position : Position
  deriving DecidableEq, Repr

/-- One per-player section of the dump: `id ship_count dropoff_count halite`
followed by the ship and dropoff lines. -/
structure PlayerDump where
  id : Nat
  halite : Nat
  ships : List ShipDump
  dropoffs : List DropoffDump
  deriving DecidableEq, Repr

/-- One whole turn dump: turn number, the per-player sections, and the
changed-cell halite updates. -/
structure TurnDump where
  turn : Nat
  players : List PlayerDump
  cellUpdates : List (Position × Nat)
  deriving DecidableEq, Repr

/-- The failures `Game::update_from_engine` can raise: an unknown player id
(`ok_or(EngineParseError)?`) or a ship/dropoff id indexed during the board
re-stamping that is missing from its map (a `HashMap` index panic). -/
inductive UpdateError where
  | unknownPlayer (id : Nat)
  | missingEntity
  deriving DecidableEq, Repr

/-- The ship loop of one player section: for each dumped ship, reuse the
record from `old_ships` (updating position and halite, also inside
`old_ships` itself — it is `get_mut`) or create a fresh one; insert it into
the new ship map and push its id.  Returns the final `old_ships`, the new
ship map and the rebuilt id list. -/
def processShips (pid : Nat) :
    List ShipDump → List (Nat × Ship) → List (Nat × Ship) → List Nat →
    List (Nat × Ship) × List (Nat × Ship) × List Nat
  | [], oldS, ships, ids => (oldS, ships, ids)
  | sd :: rest, oldS, ships, ids =>
    match mapLookup sd.id oldS with
    | some old =>
      let ship := { old with position := sd.position, halite := sd.halite }
      processShips pid rest (mapInsert sd.id ship oldS) (mapInsert sd.id ship ships)
        (ids ++ [sd.id])
    | none =>
      let ship : Ship := ⟨sd.id, pid, sd.position, sd.halite⟩
      processShips pid rest oldS (mapInsert sd.id ship ships) (ids ++ [sd.id])

/-- The dropoff loop of one player section (position refreshed on reuse). -/
def processDropoffs (pid : Nat) :
    List DropoffDump → List (Nat × Dropoff) → List (Nat × Dropoff) → List Nat →
    List (Nat × Dropoff) × List (Nat × Dropoff) × List Nat
  | [], oldD, dropoffs, ids => (oldD, dropoffs, ids)
  | dd :: rest, oldD, dropoffs, ids =>
    match mapLookup dd.id oldD with
    | some old =>
      let dropoff := { old with position := dd.position }
      processDropoffs pid rest (mapInsert dd.id dropoff oldD)
        (mapInsert dd.id dropoff dropoffs) (ids ++ [dd.id])
    | none =>
      let dropoff : Dropoff := ⟨dd.id, pid, dd.position⟩
      processDropoffs pid rest oldD (mapInsert dd.id dropoff dropoffs) (ids ++ [dd.id])

/-- The per-player loop of `Game::update_from_engine`: look the decoded id
up among the known players (`ok_or(EngineParseError)?` — fatal when
unknown), set its halite, rebuild its id lists and merge its ships and
dropoffs into the fresh maps. -/
def processSections :
    List PlayerDump → List (Nat × Ship) → List (Nat × Dropoff) → Game →
    Except UpdateError Game
  | [], _, _, g => .ok g
  | sec :: rest, oldS, oldD, g =>
    match mapLookup sec.id g.players with
    | none => .error (.unknownPlayer sec.id)
    | some player =>
      let (oldS', ships', ship_ids) := processShips sec.id sec.ships oldS g.ships []
      let (oldD', dropoffs', dropoff_ids) :=
        processDropoffs sec.id sec.dropoffs oldD g.dropoffs []
      let player' :=
        { player with halite := sec.halite, ship_ids := ship_ids, dropoff_ids := dropoff_ids }
      processSections rest oldS' oldD'
        { g with players := mapInsert sec.id player' g.players,
                 ships := ships', dropoffs := dropoffs' }

/-- The inner ship-stamping loop of the occupancy rebuild:
`self.board[ship.position].ship = Some(*ship_id)` for each id of the
player's list, indexing `self.ships` (panic when absent). -/
def stampShips (ships : List (Nat × Ship)) : List Nat → Board → Except UpdateError Board
  | [], b => .ok b
  | i :: rest, b =>
    match mapLookup i ships with
    | none => .error .missingEntity
    | some sh => stampShips ships rest (b.modifyCell sh.position fun c => { c with ship := some i })

/-- The inner dropoff-stamping loop of the occupancy rebuild. -/
def stampDropoffs (dropoffs : List (Nat × Dropoff)) :
    List Nat → Board → Except UpdateError Board
  | [], b => .ok b
  | i :: rest, b =>
    match mapLookup i dropoffs with
    | none => .error .missingEntity
    | some dr =>
      stampDropoffs dropoffs rest
        (b.modifyCell dr.position fun c => { c with struct := some (.Dropoff i) })

/-- The `for player in self.players.values()` loop that re-stamps shipyard
structures, ship occupancy and dropoff structures onto the board. -/
def stampPlayers (ships : List (Nat × Ship)) (dropoffs : List (Nat × Dropoff)) :
    List (Nat × Player) → Board → Except UpdateError Board
  | [], b => .ok b
  | e :: rest, b =>
    let pl := e.2
    let b := b.modifyCell pl.shipyard.position
      fun c => { c with struct := some (.Shipyard pl.shipyard.id) }
    match stampShips ships pl.ship_ids b with
    | .error err => .error err
    | .ok b =>
      match stampDropoffs dropoffs pl.dropoff_ids b with
      | .error err => .error err
      | .ok b => stampPlayers ships dropoffs rest b

/-- The tail of `Game::update_from_engine` after the per-player sections:
apply the board update (`engine.update(&mut self.board)?`), then rebuild all
board occupancy from the reconciled entity lists. -/
def Game.update_tail (g2 : Game) (cellUpdates : List (Position × Nat)) :
    Except UpdateError Game :=
  let g3 := { g2 with board := g2.board.update_from_engine cellUpdates }
  match stampPlayers g3.ships g3.dropoffs g3.players g3.board with
  | .error e => .error e
  | .ok b => .ok { g3 with board := b }

/-- `Game::update_from_engine` (recv.rs): set the turn, clone the old ship
and dropoff maps, clear the maps and the command queue, run the per-player
sections, apply the board update, then rebuild all board occupancy from the
reconciled entity lists. -/
def Game.update_from_engine (g : Game) (dump : TurnDump) : Except UpdateError Game :=
  let old_ships := g.ships
  let old_dropoffs := g.dropoffs
  let g1 := { g with turn := dump.turn, ships := [], dropoffs := [], commands := [] }
  match processSections dump.players old_ships old_dropoffs g1 with
  | .error e => .error e
  | .ok g2 => g2.update_tail dump.cellUpdates


/-- A concrete 2×2 board for witnesses. -/
def exBoard : Board :=
  ⟨2, 2, [[Cell.new ⟨0, 0⟩ 5, Cell.new ⟨1, 0⟩ 6],
          [Cell.new ⟨0, 1⟩ 7, Cell.new ⟨1, 1⟩ 8]]⟩

/-- A concrete player (id 0, shipyard at (1, 1)) for witnesses. -/
def exPlayer : Player :=
  ⟨0, ⟨0, 0, ⟨1, 1⟩⟩, [], [], 0⟩

/-- A concrete game (one player, one ship with id 3) for the spawn witness. -/
def exGameSpawn : Game :=
  ⟨0, exBoard, [(0, exPlayer)], [(3, ⟨3, 0, ⟨0, 0⟩, 9⟩)], [], [], 7⟩

/-- A 2×2 board whose cell (0, 0) holds 9 halite (the rest 0), with no ship
stamped anywhere. -/
def exBoardNav : Board :=
  ⟨2, 2, [[Cell.new ⟨0, 0⟩ 9, Cell.new ⟨1, 0⟩ 0],
          [Cell.new ⟨0, 1⟩ 0, Cell.new ⟨1, 1⟩ 0]]⟩

/-- A game whose ship 0 sits at (0, 0) of `exBoardNav` without being stamped
onto the board: its own cell is unoccupied and has the most halite. -/
def exGameNav : Game :=
  ⟨0, exBoardNav, [], [(0, ⟨0, 0, ⟨0, 0⟩, 0⟩)], [], [], 0⟩

/-- A 2×2 board with halites 5, 6, 7, 8 and ship 0 stamped on cell (1, 1). -/
def exBoardNav2 : Board :=
  ⟨2, 2, [[Cell.new ⟨0, 0⟩ 5, Cell.new ⟨1, 0⟩ 6],
          [Cell.new ⟨0, 1⟩ 7, ⟨⟨1, 1⟩, none, some 0, 8⟩]]⟩

/-- A game whose ship 0 sits (stamped) at (1, 1) of `exBoardNav2`. -/
def exGameNav2 : Game :=
  ⟨0, exBoardNav2, [], [(0, ⟨0, 0, ⟨1, 1⟩, 0⟩)], [], [], 0⟩

/-- A turn dump whose only player section carries the unknown player id 5. -/
def exDumpUnknown : TurnDump :=
  ⟨1, [⟨5, 0, [], []⟩], []⟩

/-- A turn dump whose only player section carries the known player id 0. -/
def exDumpKnown : TurnDump :=
  ⟨1, [⟨0, 42, [⟨7, ⟨0, 0⟩, 3⟩], []⟩], []⟩

/-- All ship lines of a turn dump, across the player sections in order. -/
def allShips (dump : TurnDump) : List ShipDump :=
  dump.players.foldr (fun sec acc => sec.ships ++ acc) []

/-- A 2×2 all-clear board with zero halite. -/
def exBoardC1 : Board :=
  ⟨2, 2, [[Cell.new ⟨0, 0⟩ 0, Cell.new ⟨1, 0⟩ 0],
          [Cell.new ⟨0, 1⟩ 0, Cell.new ⟨1, 1⟩ 0]]⟩

/-- A player owning ships 1 and 2, shipyard at (0, 0). -/
def exPlayerC1 : Player :=
  ⟨0, ⟨0, 0, ⟨0, 0⟩⟩, [1, 2], [], 0⟩

/-- A game at turn 2 with ships 1 (at (1, 1)) and 2 (at (1, 0)). -/
def exGameC1 : Game :=
  ⟨0, exBoardC1, [(0, exPlayerC1)],
   [(1, ⟨1, 0, ⟨1, 1⟩, 4⟩), (2, ⟨2, 0, ⟨1, 0⟩, 5⟩)], [], [], 2⟩

/-- A turn-3 dump in which ship 2 persists (now at (0, 1) with 7 halite) and
ship 1 has disappeared. -/
def exDumpC1 : TurnDump :=
  ⟨3, [⟨0, 100, [⟨2, ⟨0, 1⟩, 7⟩], []⟩], []⟩

/-- The reconciled game the update produces from `exGameC1` and `exDumpC1`. -/
def exGameC1' : Game :=
  ⟨0, ⟨2, 2, [[⟨⟨0, 0⟩, some (.Shipyard 0), none, 0⟩, ⟨⟨1, 0⟩, none, none, 0⟩],
              [⟨⟨0, 1⟩, none, some 2, 0⟩, ⟨⟨1, 1⟩, none, none, 0⟩]]⟩,
   [(0, ⟨0, ⟨0, 0, ⟨0, 0⟩⟩, [2], [], 100⟩)],
   [(2, ⟨2, 0, ⟨0, 1⟩, 7⟩)], [], [], 3⟩

/-- A concrete `Constants` record, with the values of the JSON sample in the
constants.rs test. -/
def constantsExample : Constants :=
  { capture_enabled := false
    capture_radius := 3
    default_map_height := 32
    default_map_width := 32
    dropoff_cost := 4000
    dropoff_penalty_ratio := 4
    extract_ratio := 4
    factor_exp_1 := 2.0
    factor_exp_2 := 2.0
    initial_halite := 5000
    inspiration_enabled := true
    inspiration_radius := 4
    inspiration_ship_count := 2
    inspired_bonus_multiplier := 2.0
    inspired_extract_ratio := 4
    inspired_move_cost_ratio := 10
    max_cell_production := 1000
    max_halite := 1000
    max_players := 16
    max_turns := 400
    max_turn_threshold := 64
    min_cell_production := 900
    min_turns := 400
    min_turn_threshold := 32
    move_cost_ratio := 10
    new_entity_halite_cost := 1000
    persistence := 0.7
    ships_above_for_capture := 3
    strict_errors := false
    game_seed := 1539764156 }

/-! ### Arithmetic facts about `normalize` -/

theorem neg_tmod_left (a b : Int) : (-a).tmod b = -(a.tmod b) := by
  rw [Int.tmod_def, Int.tmod_def, Int.neg_tdiv, Int.mul_neg]
  omega

theorem tmod_lower_bound (a : Int) {b : Int} (hb : 0 < b) : -b < a.tmod b := by
  rcases le_or_lt 0 a with ha | ha
  · have := Int.tmod_nonneg b ha
    omega
  · have h1 : (-a).tmod b < b := Int.tmod_lt_of_pos (-a) hb
    have h2 : (-a).tmod b = -(a.tmod b) := neg_tmod_left a b
    omega

theorem tmod_congr (a b : Int) : a.tmod b % b = a % b := by
  rw [Int.tmod_def]
  have h : a - b * a.tdiv b = a + b * (-(a.tdiv b)) := by ring
  rw [h, Int.add_mul_emod_self_left]

/-- For a positive dimension, `normalize` computes the Euclidean remainder. -/
theorem normalize_eq_emod (v : Int) {d : Int} (hd : 0 < d) :
    normalize v d = v % d := by
  unfold normalize
  have h1 : 0 ≤ v.tmod d + d := by
    have := tmod_lower_bound v hd
    omega
  rw [Int.tmod_eq_emod h1 (le_of_lt hd)]
  have h2 : v.tmod d + d = v.tmod d + d * 1 := by ring
  rw [h2, Int.add_mul_emod_self_left, tmod_congr]

theorem normalize_nonneg (v : Int) {d : Int} (hd : 0 < d) : 0 ≤ normalize v d := by
  rw [normalize_eq_emod v hd]
  exact Int.emod_nonneg v (by omega)

theorem normalize_lt (v : Int) {d : Int} (hd : 0 < d) : normalize v d < d := by
  rw [normalize_eq_emod v hd]
  exact Int.emod_lt_of_pos v hd

theorem normalize_idem (v : Int) {d : Int} (hd : 0 < d) :
    normalize (normalize v d) d = normalize v d := by
  rw [normalize_eq_emod (normalize v d) hd, normalize_eq_emod v hd, Int.emod_emod_of_dvd _ dvd_rfl]

/-! ### C4 -/

/-- C4: for every integer `v` and positive dimension `d`,
`normalize v d = ((v mod d) + d) mod d` lies in `[0, d)` regardless of the
sign of `v`, and `normalize` is idempotent; correspondingly
`Position::normalized` yields coordinates in `[0, w) × [0, h)` and is
idempotent. -/
theorem c4_normalize_range_idem (v d : Int) (p : Position) (w h : Int)
    (hd : 0 < d) (hw : 0 < w) (hh : 0 < h) :
    (0 ≤ normalize v d ∧ normalize v d < d ∧
      normalize (normalize v d) d = normalize v d) ∧
    (0 ≤ (p.normalized w h).x ∧ (p.normalized w h).x < w ∧
      0 ≤ (p.normalized w h).y ∧ (p.normalized w h).y < h ∧
      (p.normalized w h).normalized w h = p.normalized w h) := by
  refine ⟨⟨normalize_nonneg v hd, normalize_lt v hd, normalize_idem v hd⟩, ?_⟩
  unfold Position.normalized
  refine ⟨normalize_nonneg p.x hw, normalize_lt p.x hw,
    normalize_nonneg p.y hh, normalize_lt p.y hh, ?_⟩
  simp only [Position.mk.injEq]
  exact ⟨normalize_idem p.x hw, normalize_idem p.y hh⟩

/-- Witness for C4 at `v = -7`, `d = 5`, `p = (12, -3)`, `(w, h) = (5, 10)`. -/
theorem c4_normalize_range_idem_witness :
    ((0:Int) < 5 ∧ (0:Int) < 5 ∧ (0:Int) < 10) ∧
    ((0 ≤ normalize (-7) 5 ∧ normalize (-7) 5 < 5 ∧
      normalize (normalize (-7) 5) 5 = normalize (-7) 5) ∧
    (0 ≤ ((⟨12, -3⟩ : Position).normalized 5 10).x ∧
      ((⟨12, -3⟩ : Position).normalized 5 10).x < 5 ∧
      0 ≤ ((⟨12, -3⟩ : Position).normalized 5 10).y ∧
      ((⟨12, -3⟩ : Position).normalized 5 10).y < 10 ∧
      (((⟨12, -3⟩ : Position).normalized 5 10).normalized 5 10) =
        (⟨12, -3⟩ : Position).normalized 5 10)) :=
  ⟨⟨by decide, by decide, by decide⟩,
    c4_normalize_range_idem (-7) 5 ⟨12, -3⟩ 5 10 (by decide) (by decide) (by decide)⟩

/-! ### Facts about `min_by_key` and `Offset::reduce` -/

theorem minByLen_le_acc : ∀ (l : List Offset) (acc : Offset),
    (Offset.minByLen acc l).len ≤ acc.len
  | [], _ => le_refl _
  | o :: rest, acc => by
    simp only [Offset.minByLen]
    have ih := minByLen_le_acc rest (if o.len < acc.len then o else acc)
    by_cases hc : o.len < acc.len
    · simp only [if_pos hc] at ih ⊢
      omega
    · simp only [if_neg hc] at ih ⊢
      omega

theorem minByLen_le_mem : ∀ (l : List Offset) (acc x : Offset), x ∈ l →
    (Offset.minByLen acc l).len ≤ x.len
  | o :: rest, acc, x, hx => by
    simp only [Offset.minByLen]
    rcases List.mem_cons.mp hx with rfl | hx
    · by_cases hc : x.len < acc.len
      · rw [if_pos hc]
        exact minByLen_le_acc rest x
      · rw [if_neg hc]
        exact le_trans (minByLen_le_acc rest acc) (by omega)
    · exact minByLen_le_mem rest _ x hx

theorem minByLen_mem : ∀ (l : List Offset) (acc : Offset),
    Offset.minByLen acc l = acc ∨ Offset.minByLen acc l ∈ l
  | [], _ => Or.inl rfl
  | o :: rest, acc => by
    simp only [Offset.minByLen]
    rcases minByLen_mem rest (if o.len < acc.len then o else acc) with h | h
    · rw [h]
      by_cases hc : o.len < acc.len
      · rw [if_pos hc]
        exact Or.inr (List.mem_cons_self o rest)
      · rw [if_neg hc]
        exact Or.inl rfl
    · exact Or.inr (List.mem_cons_of_mem o h)

theorem minByLen_four (c0 c1 c2 c3 : Offset) :
    Offset.minByLen c0 [c1, c2, c3] =
      if c1.len < c0.len then
        if c2.len < c1.len then (if c3.len < c2.len then c3 else c2)
        else (if c3.len < c1.len then c3 else c1)
      else
        if c2.len < c0.len then (if c3.len < c2.len then c3 else c2)
        else (if c3.len < c0.len then c3 else c0) := by
  simp only [Offset.minByLen]
  split_ifs <;> first | rfl | omega

/-! ### C2 -/

/-- C2 (amended): for every offset `o` and positive board dimensions,
`o.reduce(w, h)` has Manhattan length ≤ the length of each of the four
candidate representatives; a second `reduce` never increases the length
(but `reduce` is not in general a fixed point, see the counterexample). -/
theorem c2_reduce_min_length (o : Offset) (w h : Int) (hw : 0 < w) (hh : 0 < h) :
    (o.reduce w h).len ≤ (o.inverted w h).len ∧
    (o.reduce w h).len ≤ (o.inverted_dx w).len ∧
    (o.reduce w h).len ≤ (o.inverted_dy h).len ∧
    (o.reduce w h).len ≤ o.len ∧
    ((o.reduce w h).reduce w h).len ≤ (o.reduce w h).len := by
  refine ⟨minByLen_le_acc _ _, ?_, ?_, ?_, ?_⟩
  · exact minByLen_le_mem _ _ _ (by simp)
  · exact minByLen_le_mem _ _ _ (by simp)
  · exact minByLen_le_mem _ _ _ (by simp)
  · exact minByLen_le_mem _ _ _ (by simp)

/-- C2 counterexample: reducing twice is not a fixed point.  For the offset
`(5, 0)` on a 4×4 board, `reduce` gives `(-3, 0)` but reducing again gives
`(1, 0)`. -/
theorem c2_reduce_not_fixed_point :
    (⟨5, 0⟩ : Offset).reduce 4 4 = ⟨-3, 0⟩ ∧
    ((⟨5, 0⟩ : Offset).reduce 4 4).reduce 4 4 = ⟨1, 0⟩ ∧
    ((⟨5, 0⟩ : Offset).reduce 4 4).reduce 4 4 ≠ (⟨5, 0⟩ : Offset).reduce 4 4 := by
  refine ⟨by decide, by decide, by decide⟩

/-- Witness for C2 at `o = (3, 1)`, `(w, h) = (5, 10)`. -/
theorem c2_reduce_min_length_witness :
    ((0:Int) < 5 ∧ (0:Int) < 10) ∧
    (((⟨3, 1⟩ : Offset).reduce 5 10).len ≤ ((⟨3, 1⟩ : Offset).inverted 5 10).len ∧
     ((⟨3, 1⟩ : Offset).reduce 5 10).len ≤ ((⟨3, 1⟩ : Offset).inverted_dx 5).len ∧
     ((⟨3, 1⟩ : Offset).reduce 5 10).len ≤ ((⟨3, 1⟩ : Offset).inverted_dy 10).len ∧
     ((⟨3, 1⟩ : Offset).reduce 5 10).len ≤ (⟨3, 1⟩ : Offset).len ∧
     (((⟨3, 1⟩ : Offset).reduce 5 10).reduce 5 10).len ≤ ((⟨3, 1⟩ : Offset).reduce 5 10).len) :=
  ⟨⟨by decide, by decide⟩, c2_reduce_min_length ⟨3, 1⟩ 5 10 (by decide) (by decide)⟩

/-! ### C3 -/

/-- C3 (amended): `reduce` returns a minimum-Manhattan-length representative
among the four topologically equivalent candidates; when several candidates
tie, the result is chosen by the evaluation order both-wrapped → x-wrapped →
y-wrapped → direct (the order of the candidate array in the source), the
first minimum winning — not direct-first as the claim states. -/
theorem c3_reduce_first_minimum (o : Offset) (w h : Int) (hw : 0 < w) (hh : 0 < h) :
    o.reduce w h = specReduceInvertedFirst o w h ∧
    (o.reduce w h = o.inverted w h ∨ o.reduce w h = o.inverted_dx w ∨
      o.reduce w h = o.inverted_dy h ∨ o.reduce w h = o) ∧
    (o.reduce w h).len =
      min (min (o.inverted w h).len (o.inverted_dx w).len)
        (min (o.inverted_dy h).len o.len) := by
  refine ⟨?_, ?_, ?_⟩
  · unfold Offset.reduce
    rw [minByLen_four]
    simp only [specReduceInvertedFirst]
    split_ifs <;> first | rfl | omega
  · rcases minByLen_mem [o.inverted_dx w, o.inverted_dy h, o] (o.inverted w h) with hm | hm
    · exact Or.inl hm
    · simp only [List.mem_cons, List.mem_singleton, List.not_mem_nil] at hm
      tauto
  · have h0 := minByLen_le_acc [o.inverted_dx w, o.inverted_dy h, o] (o.inverted w h)
    have h1 := minByLen_le_mem [o.inverted_dx w, o.inverted_dy h, o] (o.inverted w h)
      (o.inverted_dx w) (by simp)
    have h2 := minByLen_le_mem [o.inverted_dx w, o.inverted_dy h, o] (o.inverted w h)
      (o.inverted_dy h) (by simp)
    have h3 := minByLen_le_mem [o.inverted_dx w, o.inverted_dy h, o] (o.inverted w h)
      o (by simp)
    rcases minByLen_mem [o.inverted_dx w, o.inverted_dy h, o] (o.inverted w h) with hm | hm
    · rw [Offset.reduce, hm]
      rw [hm] at h1 h2 h3
      omega
    · simp only [List.mem_cons, List.mem_singleton, List.not_mem_nil, or_false] at hm
      rcases hm with hm | hm | hm <;>
        (rw [Offset.reduce, hm]; rw [hm] at h0 h1 h2 h3; omega)

/-- C3 counterexample: on a 4×4 board all four representatives of `(2, 0)`
tie at length 2; the code returns the both-wrapped candidate `(-2, 0)`,
while the claimed direct-first evaluation order would return `(2, 0)`. -/
theorem c3_reduce_tie_order_counterexample :
    (⟨2, 0⟩ : Offset).reduce 4 4 = ⟨-2, 0⟩ ∧
    specReduceDirectFirst ⟨2, 0⟩ 4 4 = ⟨2, 0⟩ ∧
    (⟨2, 0⟩ : Offset).reduce 4 4 ≠ specReduceDirectFirst ⟨2, 0⟩ 4 4 := by
  refine ⟨by decide, by decide, by decide⟩

/-- Witness for C3 at `o = (2, 0)`, `(w, h) = (4, 4)`. -/
theorem c3_reduce_first_minimum_witness :
    ((0:Int) < 4 ∧ (0:Int) < 4) ∧
    ((⟨2, 0⟩ : Offset).reduce 4 4 = specReduceInvertedFirst ⟨2, 0⟩ 4 4 ∧
     ((⟨2, 0⟩ : Offset).reduce 4 4 = (⟨2, 0⟩ : Offset).inverted 4 4 ∨
       (⟨2, 0⟩ : Offset).reduce 4 4 = (⟨2, 0⟩ : Offset).inverted_dx 4 ∨
       (⟨2, 0⟩ : Offset).reduce 4 4 = (⟨2, 0⟩ : Offset).inverted_dy 4 ∨
       (⟨2, 0⟩ : Offset).reduce 4 4 = ⟨2, 0⟩) ∧
     ((⟨2, 0⟩ : Offset).reduce 4 4).len =
       min (min ((⟨2, 0⟩ : Offset).inverted 4 4).len ((⟨2, 0⟩ : Offset).inverted_dx 4).len)
         (min ((⟨2, 0⟩ : Offset).inverted_dy 4).len (⟨2, 0⟩ : Offset).len)) :=
  ⟨⟨by decide, by decide⟩, c3_reduce_first_minimum ⟨2, 0⟩ 4 4 (by decide) (by decide)⟩

/-! ### C6 -/

/-- C6 (amended): every encoded command is the token sequence of the grammar
`g` / `c <id>` / `m <id> o` / `m <id> {n|e|s|w}` followed by exactly two
trailing spaces — one appended by the `Command` encoder itself and a second
one by `Engine::print`'s `"{} "` format; in particular `Move(ShipId(7),
East)` produces `"m 7 e  "`, not `"m 7 e "`. -/
theorem c6_command_encoding :
    Command.send_to_engine .Spawn = "g  " ∧
    (∀ i : Nat, Command.send_to_engine (.ConvertToDropoff i) = "c " ++ toString i ++ "  ") ∧
    (∀ i : Nat, Command.send_to_engine (.Collect i) = "m " ++ toString i ++ " o  ") ∧
    (∀ (i : Nat) (d : Direction),
      Command.send_to_engine (.Move i d) =
        "m " ++ toString i ++ " " ++ toString d.sendChar ++ "  ") ∧
    Command.send_to_engine (.Move 7 .East) = "m 7 e  " := by
  have hs : (" " ++ " " : String) = "  " := rfl
  have ho : (" o" ++ "  " : String) = " o  " := rfl
  refine ⟨rfl, fun i => ?_, fun i => ?_, fun i d => ?_, rfl⟩
  · simp only [Command.send_to_engine, Command.fmtString, Engine.printString,
      String.append_assoc, hs]
  · simp only [Command.send_to_engine, Command.fmtString, Engine.printString,
      String.append_assoc, hs, ho]
  · simp only [Command.send_to_engine, Command.fmtString, Engine.printString,
      String.append_assoc, hs]

/-- C6 counterexample: the encoder does not produce the claimed single
trailing space; `Move(ShipId(7), East)` yields `"m 7 e  "`, which differs
from the claimed `"m 7 e "`. -/
theorem c6_command_encoding_counterexample :
    Command.send_to_engine (.Move 7 .East) = "m 7 e  " ∧
    Command.send_to_engine (.Move 7 .East) ≠ "m 7 e " := by
  refine ⟨by decide, by decide⟩

/-! ### C9 -/

theorem runConstOps_append (st : Option Constants) (l1 l2 : List ConstOp) :
    runConstOps st (l1 ++ l2) =
      match runConstOps st l1 with
      | .error e => .error e
      | .ok (st', gets) =>
        match runConstOps st' l2 with
        | .error e => .error e
        | .ok (st'', gets') => .ok (st'', gets ++ gets') := by
  induction l1 generalizing st with
  | nil =>
    simp only [List.nil_append, runConstOps]
    rcases runConstOps st l2 with e | ⟨st'', gets'⟩ <;> simp
  | cons op rest ih =>
    cases op with
    | setOp c =>
      rcases hset : constantsSet st c with e | st'
      · simp [runConstOps, hset]
      · simp [runConstOps, hset, ih st']
    | getOp =>
      rcases hget : constantsGet st with e | c
      · simp [runConstOps, hget]
      · simp only [List.cons_append, List.append_eq, runConstOps, hget]
        rw [ih st]
        rcases hrest : runConstOps st rest with e | ⟨st', gets⟩
        · simp [hrest]
        · simp only [hrest]
          rcases hres : runConstOps st' l2 with e | ⟨st'', gets'⟩ <;> simp [hres]

/-- C9: the process-wide configuration record is set-once.  Running any
sequence of `set`/`get` calls from the unset state: once a set has stored a
record, a later `set` makes the run fail (panic); a `get` that comes before
any `set` makes the run fail; and a `get` performed after the store holds a
record returns exactly the stored record. -/
theorem c9_constants_set_once :
    (∀ (pre : List ConstOp) (c₁ : Constants) (gets : List Constants) (c₂ : Constants)
        (suf : List ConstOp),
      runConstOps none pre = .ok (some c₁, gets) →
      (runConstOps none (pre ++ ConstOp.setOp c₂ :: suf)).isOk = false) ∧
    (∀ (pre suf : List ConstOp),
      (∀ c : Constants, ConstOp.setOp c ∉ pre) →
      (runConstOps none (pre ++ ConstOp.getOp :: suf)).isOk = false) ∧
    (∀ (pre : List ConstOp) (c₁ : Constants) (gets : List Constants),
      runConstOps none pre = .ok (some c₁, gets) →
      runConstOps none (pre ++ [ConstOp.getOp]) = .ok (some c₁, gets ++ [c₁])) := by
  refine ⟨?_, ?_, ?_⟩
  · intro pre c₁ gets c₂ suf h
    rw [runConstOps_append, h]
    simp only [runConstOps, constantsSet]
    rfl
  · intro pre suf hpre
    cases pre with
    | nil => rfl
    | cons op rest =>
      cases op with
      | setOp c => exact absurd (List.mem_cons_self _ _) (fun hmem => hpre c hmem)
      | getOp => rfl
  · intro pre c₁ gets h
    rw [runConstOps_append, h]
    simp [runConstOps, constantsGet]

/-- Witness for C9: a run that stores the sample record, then the three
conclusions at that concrete run. -/
theorem c9_constants_set_once_witness :
    (runConstOps none ([ConstOp.setOp constantsExample] ++
      ConstOp.setOp constantsExample :: [])).isOk = false ∧
    (runConstOps none ([] ++ ConstOp.getOp :: [])).isOk = false ∧
    runConstOps none ([ConstOp.setOp constantsExample] ++ [ConstOp.getOp]) =
      .ok (some constantsExample, [] ++ [constantsExample]) :=
  ⟨c9_constants_set_once.1 [ConstOp.setOp constantsExample] constantsExample []
      constantsExample [] rfl,
    c9_constants_set_once.2.1 [] [] (fun c hc => by cases hc),
    c9_constants_set_once.2.2 [ConstOp.setOp constantsExample] constantsExample [] rfl⟩

/-! ### C7 -/

theorem refill_nonempty (t : String) (ts lines : List String) :
    refill (t :: ts) lines = (t :: ts, lines) := by
  cases lines with
  | nil => rfl
  | cons l rest => simp [refill]

/-- C7 (amended): when the pending-token queue is non-empty, `next` reads no
line and pops the first token; when the queue is empty, lines are read one
at a time — each split on whitespace with the tokens appended — until a line
yields at least one token, so exactly the leading whitespace-only lines plus
the first token-bearing line are consumed (one line when the first line
already has a token), and then the first token is popped. -/
theorem c7_token_reader (t : String) (ts lines : List String)
    (pre post : List String) (l tok : String) (toks : List String)
    (hpre : ∀ p ∈ pre, splitWhitespace p = [])
    (hl : splitWhitespace l = tok :: toks) :
    Engine.next ⟨t :: ts, lines⟩ = some (t, ⟨ts, lines⟩) ∧
    Engine.next ⟨[], pre ++ l :: post⟩ = some (tok, ⟨toks, post⟩) := by
  constructor
  · rw [Engine.next]
    rw [refill_nonempty]
  · rw [Engine.next]
    have key : ∀ pre : List String, (∀ p ∈ pre, splitWhitespace p = []) →
        refill [] (pre ++ l :: post) = (tok :: toks, post) := by
      intro pre hpre
      induction pre with
      | nil =>
        rw [List.nil_append, refill]
        simp only [List.isEmpty_nil, if_true, List.nil_append, hl]
        exact refill_nonempty tok toks post
      | cons p rest ih =>
        rw [List.cons_append, refill]
        simp only [List.isEmpty_nil, if_true, List.nil_append,
          hpre p (List.mem_cons_self p rest)]
        exact ih fun q hq => hpre q (List.mem_cons_of_mem p hq)
    rw [key pre hpre]

/-- C7 counterexample: with an empty queue and the input lines
`["", "x 1"]`, the `while` loop reads *two* lines (the first line is
whitespace-only and yields no token), not exactly one as claimed: after the
call no unconsumed line remains, whereas reading exactly one line would have
left `["x 1"]`. -/
theorem c7_token_reader_counterexample :
    Engine.next ⟨[], ["", "x 1"]⟩ = some ("x", ⟨["1"], []⟩) ∧
    (Engine.next ⟨[], ["", "x 1"]⟩).map (fun r => r.2.lines) ≠ some ["x 1"] := by
  refine ⟨by decide, by decide⟩

/-- Witness for C7: a non-empty queue, and an empty queue with one leading
whitespace-only line before the token-bearing line `"x 1"`. -/
theorem c7_token_reader_witness :
    ((∀ p ∈ [" "], splitWhitespace p = []) ∧ splitWhitespace "x 1" = ["x", "1"]) ∧
    (Engine.next ⟨["a"], ["z"]⟩ = some ("a", ⟨[], ["z"]⟩) ∧
     Engine.next ⟨[], [" "] ++ "x 1" :: ["q"]⟩ = some ("x", ⟨["1"], ["q"]⟩)) :=
  ⟨⟨by decide, by decide⟩,
    c7_token_reader "a" [] ["z"] [" "] ["q"] "x 1" "x" ["1"] (by decide) (by decide)⟩

/-! ### Association-list map lemmas -/

theorem mapLookup_append (k : Nat) (m1 m2 : List (Nat × α)) :
    mapLookup k (m1 ++ m2) =
      match mapLookup k m1 with
      | some v => some v
      | none => mapLookup k m2 := by
  induction m1 with
  | nil => rfl
  | cons e rest ih => by_cases he : e.1 = k <;> simp [mapLookup, he, ih]

theorem mapLookup_map_replace (k : Nat) (v : α) (m : List (Nat × α)) :
    mapLookup k (m.map fun e => if e.1 = k then (k, v) else e) =
      match mapLookup k m with
      | some _ => some v
      | none => none := by
  induction m with
  | nil => rfl
  | cons e rest ih => by_cases he : e.1 = k <;> simp [mapLookup, he, ih]

theorem mapLookup_map_replace_ne (k k' : Nat) (v : α) (m : List (Nat × α)) (h : k' ≠ k) :
    mapLookup k' (m.map fun e => if e.1 = k then (k, v) else e) = mapLookup k' m := by
  induction m with
  | nil => rfl
  | cons e rest ih =>
    simp only [List.map_cons, mapLookup]
    by_cases he : e.1 = k
    · rw [if_pos he]
      have hkv : ¬((k, v).1 = k') := by
        simp only []
        omega
      rw [if_neg hkv, if_neg (by omega : ¬e.1 = k')]
      exact ih
    · rw [if_neg he]
      by_cases he2 : e.1 = k'
      · rw [if_pos he2, if_pos he2]
      · rw [if_neg he2, if_neg he2]
        exact ih

theorem mapLookup_insert_self (k : Nat) (v : α) (m : List (Nat × α)) :
    mapLookup k (mapInsert k v m) = some v := by
  unfold mapInsert
  by_cases hc : (mapLookup k m).isSome
  · rw [if_pos hc, mapLookup_map_replace]
    rcases hm : mapLookup k m with _ | w
    · rw [hm] at hc
      simp at hc
    · rfl
  · rw [if_neg hc, mapLookup_append]
    rcases hm : mapLookup k m with _ | w
    · simp [mapLookup]
    · rw [hm] at hc
      simp at hc

theorem mapLookup_insert_ne (k k' : Nat) (v : α) (m : List (Nat × α)) (h : k' ≠ k) :
    mapLookup k' (mapInsert k v m) = mapLookup k' m := by
  unfold mapInsert
  by_cases hc : (mapLookup k m).isSome
  · rw [if_pos hc, mapLookup_map_replace_ne k k' v m h]
  · rw [if_neg hc, mapLookup_append]
    rcases hm : mapLookup k' m with _ | w
    · simp only [hm, mapLookup]
      rw [if_neg (by omega : ¬k = k')]
    · simp only [hm]

theorem maxKey_ge (m : List (Nat × α)) (k : Nat) (v : α) (h : mapLookup k m = some v) :
    ∃ mm, maxKey m = some mm ∧ k ≤ mm := by
  induction m with
  | nil => simp [mapLookup] at h
  | cons e rest ih =>
    by_cases he : e.1 = k
    · rcases hr : maxKey rest with _ | mm
      · exact ⟨e.1, by simp [maxKey, hr], by omega⟩
      · exact ⟨max e.1 mm, by simp [maxKey, hr], by omega⟩
    · rw [mapLookup, if_neg he] at h
      rcases ih h with ⟨mm, hmm, hk⟩
      exact ⟨max e.1 mm, by simp [maxKey, hmm], by omega⟩

theorem nextShipId_fresh (ships : List (Nat × Ship)) :
    mapLookup (nextShipId ships) ships = none := by
  rcases hm : mapLookup (nextShipId ships) ships with _ | v
  · rfl
  · rcases maxKey_ge ships _ v hm with ⟨mm, hmax, hle⟩
    have hid : nextShipId ships = mm + 1 := by
      unfold nextShipId
      rw [hmax]
    omega

/-! ### `modifyIdx` and board access lemmas -/

theorem modifyIdx_length (f : α → α) : ∀ (n : Nat) (l : List α),
    (modifyIdx f n l).length = l.length
  | 0, [] => rfl
  | _ + 1, [] => rfl
  | 0, _ :: _ => rfl
  | n + 1, _ :: as => by simp [modifyIdx, modifyIdx_length f n as]

theorem modifyIdx_getD_eq (f : α → α) (d : α) :
    ∀ (n : Nat) (l : List α), n < l.length →
      (modifyIdx f n l).getD n d = f (l.getD n d)
  | 0, [], h => by simp at h
  | _ + 1, [], h => by simp at h
  | 0, a :: as, _ => rfl
  | n + 1, a :: as, h => by
    simp only [modifyIdx, List.getD_cons_succ]
    exact modifyIdx_getD_eq f d n as (by simpa using h)

theorem modifyIdx_getD_ne (f : α → α) (d : α) :
    ∀ (n m : Nat) (l : List α), m ≠ n →
      (modifyIdx f n l).getD m d = l.getD m d
  | 0, _, [], _ => rfl
  | _ + 1, _, [], _ => rfl
  | 0, 0, a :: as, h => absurd rfl h
  | 0, m + 1, a :: as, _ => rfl
  | n + 1, 0, a :: as, _ => rfl
  | n + 1, m + 1, a :: as, h => by
    simp only [modifyIdx, List.getD_cons_succ]
    exact modifyIdx_getD_ne f d n m as (by omega)

theorem modifyIdx_ge (f : α → α) : ∀ (n : Nat) (l : List α), l.length ≤ n →
    modifyIdx f n l = l
  | 0, [], _ => rfl
  | _ + 1, [], _ => rfl
  | 0, a :: as, h => by simp at h
  | n + 1, a :: as, h => by
    simp only [modifyIdx, List.cons.injEq, true_and]
    exact modifyIdx_ge f n as (by simpa using h)

theorem modifyIdx_mem (f : α → α) :
    ∀ (n : Nat) (l : List α) (a : α), a ∈ modifyIdx f n l →
      a ∈ l ∨ ∃ b ∈ l, a = f b
  | 0, [], a, h => by simp [modifyIdx] at h
  | _ + 1, [], a, h => by simp [modifyIdx] at h
  | 0, b :: as, a, h => by
    rcases List.mem_cons.mp h with h | h
    · exact Or.inr ⟨b, List.mem_cons_self b as, h⟩
    · exact Or.inl (List.mem_cons_of_mem b h)
  | n + 1, b :: as, a, h => by
    rcases List.mem_cons.mp h with h | h
    · exact Or.inl (h ▸ List.mem_cons_self b as)
    · rcases modifyIdx_mem f n as a h with h | ⟨c, hc, hfc⟩
      · exact Or.inl (List.mem_cons_of_mem b h)
      · exact Or.inr ⟨c, List.mem_cons_of_mem b hc, hfc⟩

theorem Board.get_modifyCell_self (b : Board) (p : Position) (f : Cell → Cell)
    (hwf : b.wellFormed) (hw : 0 < b.width) (hh : 0 < b.height) :
    (b.modifyCell p f).get p = f (b.get p) := by
  unfold Board.modifyCell Board.get
  simp only [Position.normalized]
  have h1 := normalize_nonneg p.y hh
  have h2 := normalize_lt p.y hh
  have h3 := normalize_nonneg p.x hw
  have h4 := normalize_lt p.x hw
  have hyr : (normalize p.y b.height).toNat < b.cells.length := by
    rw [hwf.1]
    omega
  rw [modifyIdx_getD_eq _ _ _ _ hyr]
  have hrow : b.cells.getD (normalize p.y b.height).toNat [] ∈ b.cells := by
    rw [List.getD_eq_getElem?_getD, List.getElem?_eq_getElem hyr]
    exact List.getElem_mem hyr
  have hxr : (normalize p.x b.width).toNat <
      (b.cells.getD (normalize p.y b.height).toNat []).length := by
    rw [hwf.2 _ hrow]
    omega
  rw [modifyIdx_getD_eq _ _ _ _ hxr]

theorem Board.get_modifyCell_ne (b : Board) (p q : Position) (f : Cell → Cell)
    (hw : 0 < b.width) (hh : 0 < b.height)
    (hne : q.normalized b.width b.height ≠ p.normalized b.width b.height) :
    (b.modifyCell p f).get q = b.get q := by
  unfold Board.modifyCell Board.get
  simp only [Position.normalized]
  have hne' : normalize q.x b.width ≠ normalize p.x b.width ∨
      normalize q.y b.height ≠ normalize p.y b.height := by
    by_contra hcon
    push_neg at hcon
    refine hne ?_
    unfold Position.normalized
    rw [hcon.1, hcon.2]
  have h1 := normalize_nonneg p.y hh
  have h3 := normalize_nonneg p.x hw
  have h5 := normalize_nonneg q.y hh
  have h7 := normalize_nonneg q.x hw
  by_cases hy : (normalize q.y b.height).toNat = (normalize p.y b.height).toNat
  · have hyeq : normalize q.y b.height = normalize p.y b.height := by omega
    have hxn : (normalize q.x b.width).toNat ≠ (normalize p.x b.width).toNat := by
      rcases hne' with hne' | hne'
      · omega
      · exact absurd hyeq hne'
    by_cases hyr : (normalize p.y b.height).toNat < b.cells.length
    · rw [hy, modifyIdx_getD_eq _ _ _ _ hyr, modifyIdx_getD_ne _ _ _ _ _ hxn]
    · rw [modifyIdx_ge _ _ _ (by omega)]
  · rw [modifyIdx_getD_ne _ _ _ _ _ hy]

/-! ### C10 -/

/-- C10: for every game state containing the owning player (on a well-formed
board with positive dimensions), `spawn_ship` inserts a fresh `Ship` whose
id is one greater than the maximum ship id in the map (0 when empty), owned
by us, at our shipyard's position with 0 halite; it stamps the board cell at
the shipyard position with that ship id (all other cell fields intact),
appends exactly one `Spawn` command, and leaves every other ship and every
other cell unchanged. -/
theorem c10_spawn_ship (g : Game) (me : Player)
    (hme : mapLookup g.my_id g.players = some me)
    (hwf : g.board.wellFormed) (hw : 0 < g.board.width) (hh : 0 < g.board.height) :
    ∃ g', g.spawn_ship = some g' ∧
      (maxKey g.ships = none → nextShipId g.ships = 0) ∧
      (∀ mm, maxKey g.ships = some mm → nextShipId g.ships = mm + 1) ∧
      mapLookup (nextShipId g.ships) g.ships = none ∧
      mapLookup (nextShipId g.ships) g'.ships =
        some ⟨nextShipId g.ships, g.my_id, me.shipyard.position, 0⟩ ∧
      (∀ j, j ≠ nextShipId g.ships → mapLookup j g'.ships = mapLookup j g.ships) ∧
      (g'.board.get me.shipyard.position).ship = some (nextShipId g.ships) ∧
      (g'.board.get me.shipyard.position).halite =
        (g.board.get me.shipyard.position).halite ∧
      (g'.board.get me.shipyard.position).struct =
        (g.board.get me.shipyard.position).struct ∧
      (∀ q : Position, q.normalized g.board.width g.board.height ≠
          me.shipyard.position.normalized g.board.width g.board.height →
        g'.board.get q = g.board.get q) ∧
      g'.commands = g.commands ++ [Command.Spawn] ∧
      g'.players = g.players ∧ g'.dropoffs = g.dropoffs ∧ g'.turn = g.turn ∧
      g'.my_id = g.my_id := by
  unfold Game.spawn_ship
  rw [hme]
  refine ⟨_, rfl, ?_, ?_, nextShipId_fresh g.ships, ?_, ?_,
    ?_, ?_, ?_, ?_, rfl, rfl, rfl, rfl, rfl⟩
  · intro hnone
    simp [nextShipId, hnone]
  · intro mm hmm
    simp [nextShipId, hmm]
  · exact mapLookup_insert_self _ _ _
  · intro j hj
    exact mapLookup_insert_ne _ j _ _ hj
  · rw [Board.get_modifyCell_self _ _ _ hwf hw hh]
  · rw [Board.get_modifyCell_self _ _ _ hwf hw hh]
  · rw [Board.get_modifyCell_self _ _ _ hwf hw hh]
  · intro q hq
    exact Board.get_modifyCell_ne _ _ q _ hw hh hq

/-- Witness for C10 on the concrete one-player game `exGameSpawn`. -/
theorem c10_spawn_ship_witness :
    (mapLookup exGameSpawn.my_id exGameSpawn.players = some exPlayer ∧
      exGameSpawn.board.wellFormed ∧ 0 < exGameSpawn.board.width ∧
      0 < exGameSpawn.board.height) ∧
    (∃ g', exGameSpawn.spawn_ship = some g' ∧
      (maxKey exGameSpawn.ships = none → nextShipId exGameSpawn.ships = 0) ∧
      (∀ mm, maxKey exGameSpawn.ships = some mm → nextShipId exGameSpawn.ships = mm + 1) ∧
      mapLookup (nextShipId exGameSpawn.ships) exGameSpawn.ships = none ∧
      mapLookup (nextShipId exGameSpawn.ships) g'.ships =
        some ⟨nextShipId exGameSpawn.ships, exGameSpawn.my_id,
          exPlayer.shipyard.position, 0⟩ ∧
      (∀ j, j ≠ nextShipId exGameSpawn.ships →
        mapLookup j g'.ships = mapLookup j exGameSpawn.ships) ∧
      (g'.board.get exPlayer.shipyard.position).ship =
        some (nextShipId exGameSpawn.ships) ∧
      (g'.board.get exPlayer.shipyard.position).halite =
        (exGameSpawn.board.get exPlayer.shipyard.position).halite ∧
      (g'.board.get exPlayer.shipyard.position).struct =
        (exGameSpawn.board.get exPlayer.shipyard.position).struct ∧
      (∀ q : Position, q.normalized exGameSpawn.board.width exGameSpawn.board.height ≠
          exPlayer.shipyard.position.normalized exGameSpawn.board.width
            exGameSpawn.board.height →
        g'.board.get q = exGameSpawn.board.get q) ∧
      g'.commands = exGameSpawn.commands ++ [Command.Spawn] ∧
      g'.players = exGameSpawn.players ∧ g'.dropoffs = exGameSpawn.dropoffs ∧
      g'.turn = exGameSpawn.turn ∧ g'.my_id = exGameSpawn.my_id) :=
  ⟨⟨by decide, ⟨by decide, by decide⟩, by decide, by decide⟩,
    c10_spawn_ship exGameSpawn exPlayer (by decide)
      ⟨by decide, by decide⟩ (by decide) (by decide)⟩

/-! ### C5 -/

theorem navLe_trans (a b c : Option Direction × Cell) :
    navLe a b → navLe b c → navLe a c := by
  simp only [navLe, decide_eq_true_eq]
  omega

theorem navLe_total (a b : Option Direction × Cell) : navLe a b || navLe b a := by
  simp only [navLe, Bool.or_eq_true, decide_eq_true_eq]
  omega

theorem find?_decomp : ∀ (l : List α) (p : α → Bool) (b : α), l.find? p = some b →
    p b = true ∧ ∃ as bs, l = as ++ b :: bs ∧ ∀ a ∈ as, p a = false
  | [], p, b, h => by simp [List.find?] at h
  | a :: l, p, b, h => by
    by_cases ha : p a = true
    · rw [List.find?_cons_of_pos _ ha] at h
      injection h with h
      subst h
      exact ⟨ha, [], l, rfl, by intro x hx; cases hx⟩
    · rw [List.find?_cons_of_neg _ (by simpa using ha)] at h
      obtain ⟨hb, as, bs, heq, hall⟩ := find?_decomp l p b h
      refine ⟨hb, a :: as, bs, by rw [heq, List.cons_append], ?_⟩
      intro x hx
      rcases List.mem_cons.mp hx with rfl | hx
      · simpa using ha
      · exact hall x hx

theorem pair_sublist_mem_left {x e : α} : ∀ (as bs : List α), x ≠ e → e ∉ bs →
    List.Sublist [x, e] (as ++ e :: bs) → x ∈ as
  | [], bs, hne, hbs, h => by
    rw [List.nil_append] at h
    cases h with
    | cons _ h =>
      exact absurd (h.subset (List.mem_cons_of_mem x (List.mem_cons_self e []))) hbs
    | cons₂ _ h => exact absurd rfl hne
  | hd :: tl, bs, hne, hbs, h => by
    rw [List.cons_append] at h
    cases h with
    | cons _ h => exact List.mem_cons_of_mem _ (pair_sublist_mem_left tl bs hne hbs h)
    | cons₂ _ h => exact List.mem_cons_self _ _

theorem navL_pair_sublist (f : Direction → Cell) (cC : Cell) (d d' : Direction)
    (h : dirIdx d < dirIdx d') :
    List.Sublist [(some d, f d), (some d', f d')]
      [(some Direction.North, f Direction.North), (some Direction.East, f Direction.East),
       (some Direction.South, f Direction.South), (some Direction.West, f Direction.West),
       ((none : Option Direction), cC)] := by
  cases d with
  | North =>
    cases d' with
    | North => simp [dirIdx] at h
    | East => exact .cons₂ _ (.cons₂ _ (List.nil_sublist _))
    | South => exact .cons₂ _ (.cons _ (.cons₂ _ (List.nil_sublist _)))
    | West => exact .cons₂ _ (.cons _ (.cons _ (.cons₂ _ (List.nil_sublist _))))
  | East =>
    cases d' with
    | North => simp [dirIdx] at h
    | East => simp [dirIdx] at h
    | South => exact .cons _ (.cons₂ _ (.cons₂ _ (List.nil_sublist _)))
    | West => exact .cons _ (.cons₂ _ (.cons _ (.cons₂ _ (List.nil_sublist _))))
  | South =>
    cases d' with
    | North => simp [dirIdx] at h
    | East => simp [dirIdx] at h
    | South => simp [dirIdx] at h
    | West => exact .cons _ (.cons _ (.cons₂ _ (.cons₂ _ (List.nil_sublist _))))
  | West =>
    cases d' with
    | North => simp [dirIdx] at h
    | East => simp [dirIdx] at h
    | South => simp [dirIdx] at h
    | West => simp [dirIdx] at h

/-- C5 (amended): `navigate_to_halite` considers the four adjacent cells
*and the ship's current cell* (carrying no direction).  When the cell at the
ship's position is occupied — as it is in every reconciled state — the
result is `none` exactly when all four adjacent cells are occupied, and a
returned direction always points at an unoccupied adjacent cell of maximal
halite among the unoccupied ones, the earliest in North, East, South, West
order among ties.  (When the ship's own cell is unoccupied the heuristic
may return `none` despite unoccupied neighbours — see the counterexample.) -/
theorem c5_navigate_to_halite (g : Game) (sid : Nat) (ship : Ship)
    (hship : mapLookup sid g.ships = some ship)
    (hocc : (g.board.get ship.position).is_occupied = true) :
    (g.navigate_to_halite sid = some none ↔
      ∀ d : Direction, (g.board.get (ship.position.addDir d)).is_occupied = true) ∧
    (∀ d : Direction, g.navigate_to_halite sid = some (some d) →
      (g.board.get (ship.position.addDir d)).is_occupied = false ∧
      (∀ d' : Direction, (g.board.get (ship.position.addDir d')).is_occupied = false →
        (g.board.get (ship.position.addDir d')).halite ≤
          (g.board.get (ship.position.addDir d)).halite) ∧
      (∀ d' : Direction, (g.board.get (ship.position.addDir d')).is_occupied = false →
        (g.board.get (ship.position.addDir d')).halite =
          (g.board.get (ship.position.addDir d)).halite →
        dirIdx d ≤ dirIdx d')) := by
  have hnav : g.navigate_to_halite sid =
      some (match (([(some Direction.North, g.board.get (ship.position.addDir .North)),
          (some Direction.East, g.board.get (ship.position.addDir .East)),
          (some Direction.South, g.board.get (ship.position.addDir .South)),
          (some Direction.West, g.board.get (ship.position.addDir .West)),
          ((none : Option Direction), g.board.get ship.position)].mergeSort
            navLe).find? (fun p => !p.2.is_occupied)) with
        | some p => p.1
        | none => none) := by
    unfold Game.navigate_to_halite
    rw [hship]
  set L : List (Option Direction × Cell) :=
    [(some Direction.North, g.board.get (ship.position.addDir .North)),
     (some Direction.East, g.board.get (ship.position.addDir .East)),
     (some Direction.South, g.board.get (ship.position.addDir .South)),
     (some Direction.West, g.board.get (ship.position.addDir .West)),
     ((none : Option Direction), g.board.get ship.position)] with hLdef
  have hmemL : ∀ d' : Direction,
      ((some d' : Option Direction), g.board.get (ship.position.addDir d')) ∈ L := by
    intro d'
    cases d' <;> simp [hLdef]
  by_cases hall : ∀ d : Direction, (g.board.get (ship.position.addDir d)).is_occupied = true
  · have hfind : (L.mergeSort navLe).find? (fun p => !p.2.is_occupied) = none := by
      rw [List.find?_eq_none]
      intro x hx
      have hxL : x ∈ L := List.mem_mergeSort.mp hx
      rw [hLdef] at hxL
      simp only [List.mem_cons, List.not_mem_nil, or_false] at hxL
      rcases hxL with rfl | rfl | rfl | rfl | rfl <;>
        simp [hall Direction.North, hall Direction.East, hall Direction.South,
          hall Direction.West, hocc]
    rw [hfind] at hnav
    constructor
    · exact ⟨fun _ => hall, fun _ => hnav⟩
    · intro d hd
      rw [hnav] at hd
      simp at hd
  · push_neg at hall
    obtain ⟨d₀, hd₀⟩ := hall
    have hd₀' : (g.board.get (ship.position.addDir d₀)).is_occupied = false :=
      Bool.not_eq_true _ ▸ (by simpa using hd₀)
    have hexists : ∃ x ∈ L.mergeSort navLe, (fun p : Option Direction × Cell =>
        !p.2.is_occupied) x = true := by
      refine ⟨(some d₀, g.board.get (ship.position.addDir d₀)), ?_, ?_⟩
      · exact List.mem_mergeSort.mpr (hmemL d₀)
      · simp [hd₀']
    obtain ⟨e, hfind⟩ := Option.isSome_iff_exists.mp (List.find?_isSome.mpr hexists)
    obtain ⟨hPe, as, bs, hSdec, hasF⟩ := find?_decomp _ _ _ hfind
    have heS : e ∈ L.mergeSort navLe := by
      rw [hSdec]
      exact List.mem_append_right as (List.mem_cons_self e bs)
    have heL : e ∈ L := List.mem_mergeSort.mp heS
    have hnodupS : (L.mergeSort navLe).Nodup := by
      refine (List.mergeSort_perm L navLe).symm.nodup ?_
      rw [hLdef]
      simp
    have hsorted := @List.sorted_mergeSort _ navLe
      (fun a b c => navLe_trans a b c) (fun a b => navLe_total a b) L
    obtain ⟨dstar, hestar⟩ : ∃ dstar : Direction,
        e = (some dstar, g.board.get (ship.position.addDir dstar)) := by
      rw [hLdef] at heL
      simp only [List.mem_cons, List.not_mem_nil, or_false] at heL
      rcases heL with rfl | rfl | rfl | rfl | rfl
      · exact ⟨Direction.North, rfl⟩
      · exact ⟨Direction.East, rfl⟩
      · exact ⟨Direction.South, rfl⟩
      · exact ⟨Direction.West, rfl⟩
      · rw [show ((none : Option Direction),
            g.board.get ship.position).2.is_occupied = true from hocc] at hPe
        simp at hPe
    have hstar_unocc : (g.board.get (ship.position.addDir dstar)).is_occupied = false := by
      rw [hestar] at hPe
      simpa using hPe
    have hmax : ∀ d' : Direction,
        (g.board.get (ship.position.addDir d')).is_occupied = false →
        (g.board.get (ship.position.addDir d')).halite ≤
          (g.board.get (ship.position.addDir dstar)).halite := by
      intro d' hd'
      by_cases hdd : d' = dstar
      · rw [hdd]
      · set x : Option Direction × Cell :=
          (some d', g.board.get (ship.position.addDir d')) with hxdef
        have hxS : x ∈ L.mergeSort navLe := List.mem_mergeSort.mpr (hmemL d')
        have hxne : x ≠ e := by
          rw [hestar, hxdef]
          intro hxe
          exact hdd (by simpa using congrArg Prod.fst hxe)
        have hxP : (fun p : Option Direction × Cell => !p.2.is_occupied) x = true := by
          simp [hxdef, hd']
        have hxP' : (!x.2.is_occupied) = true := hxP
        have hxbs : x ∈ bs := by
          rw [hSdec] at hxS
          rcases List.mem_append.mp hxS with hxa | hxc
          · rw [hasF x hxa] at hxP'
            cases hxP'
          · rcases List.mem_cons.mp hxc with hxe | hxb
            · exact absurd hxe hxne
            · exact hxb
        have hpair : navLe e x := by
          rw [hSdec] at hsorted
          have h1 := (List.pairwise_append.mp hsorted).2.1
          exact (List.pairwise_cons.mp h1).1 x hxbs
        rw [hestar, hxdef] at hpair
        simpa [navLe] using hpair
    refine ⟨?_, ?_⟩
    · rw [hfind] at hnav
      constructor
      · intro hcon
        rw [hnav, hestar] at hcon
        simp at hcon
      · intro hcon
        rw [hcon d₀] at hd₀'
        cases hd₀'
    · intro d hd
      rw [hfind, hestar] at hnav
      rw [hnav] at hd
      have hdstar : dstar = d := by simpa using hd
      subst hdstar
      refine ⟨hstar_unocc, hmax, ?_⟩
      intro d' hd' htie
      by_contra hlt
      push_neg at hlt
      set x : Option Direction × Cell :=
        (some d', g.board.get (ship.position.addDir d')) with hxdef
      have hdd : d' ≠ dstar := by
        intro h
        rw [h] at hlt
        omega
      have hxne : x ≠ e := by
        rw [hestar, hxdef]
        intro hxe
        exact hdd (by simpa using congrArg Prod.fst hxe)
      have hsubL : List.Sublist [x, e] L := by
        rw [hestar, hxdef, hLdef]
        exact navL_pair_sublist (fun dd => g.board.get (ship.position.addDir dd))
          (g.board.get ship.position) d' dstar hlt
      have hxe_le : navLe x e := by
        rw [hestar, hxdef]
        simp [navLe, htie]
      have hsubS : List.Sublist [x, e] (L.mergeSort navLe) :=
        List.pair_sublist_mergeSort (fun a b c => navLe_trans a b c)
          (fun a b => navLe_total a b) hxe_le hsubL
      have hnotbs : e ∉ bs := by
        rw [hSdec] at hnodupS
        exact (List.nodup_cons.mp (List.nodup_append.mp hnodupS).2.1).1
      rw [hSdec] at hsubS
      have hxas : x ∈ as := pair_sublist_mem_left as bs hxne hnotbs hsubS
      have := hasF x hxas
      simp [hxdef, hd'] at this

theorem navigate_stay_of_current_max (g : Game) (sid : Nat) (ship : Ship)
    (hship : mapLookup sid g.ships = some ship)
    (hcur : (g.board.get ship.position).is_occupied = false)
    (hmax : ∀ d : Direction, (g.board.get (ship.position.addDir d)).halite <
      (g.board.get ship.position).halite) :
    g.navigate_to_halite sid = some none := by
  have hnav : g.navigate_to_halite sid =
      some (match (([(some Direction.North, g.board.get (ship.position.addDir .North)),
          (some Direction.East, g.board.get (ship.position.addDir .East)),
          (some Direction.South, g.board.get (ship.position.addDir .South)),
          (some Direction.West, g.board.get (ship.position.addDir .West)),
          ((none : Option Direction), g.board.get ship.position)].mergeSort
            navLe).find? (fun p => !p.2.is_occupied)) with
        | some p => p.1
        | none => none) := by
    unfold Game.navigate_to_halite
    rw [hship]
  set L : List (Option Direction × Cell) :=
    [(some Direction.North, g.board.get (ship.position.addDir .North)),
     (some Direction.East, g.board.get (ship.position.addDir .East)),
     (some Direction.South, g.board.get (ship.position.addDir .South)),
     (some Direction.West, g.board.get (ship.position.addDir .West)),
     ((none : Option Direction), g.board.get ship.position)] with hLdef
  have hsorted := @List.sorted_mergeSort _ navLe
    (fun a b c => navLe_trans a b c) (fun a b => navLe_total a b) L
  have hCmem : ((none : Option Direction), g.board.get ship.position) ∈
      L.mergeSort navLe := by
    rw [List.mem_mergeSort, hLdef]
    simp
  rcases hS : L.mergeSort navLe with _ | ⟨y, ys⟩
  · rw [hS] at hCmem
    cases hCmem
  · have hyC : y = ((none : Option Direction), g.board.get ship.position) := by
      by_contra hne
      have hCys : ((none : Option Direction), g.board.get ship.position) ∈ ys := by
        rw [hS] at hCmem
        rcases List.mem_cons.mp hCmem with h | h
        · exact absurd h.symm hne
        · exact h
      have hyL : y ∈ L := List.mem_mergeSort.mp (hS ▸ List.mem_cons_self y ys)
      have hle : navLe y ((none : Option Direction), g.board.get ship.position) := by
        rw [hS] at hsorted
        exact (List.pairwise_cons.mp hsorted).1 _ hCys
      have hle' : (g.board.get ship.position).halite ≤ y.2.halite := by
        simpa [navLe] using hle
      rw [hLdef] at hyL
      simp only [List.mem_cons, List.not_mem_nil, or_false] at hyL
      rcases hyL with rfl | rfl | rfl | rfl | rfl
      · have h2 : (g.board.get ship.position).halite ≤
            (g.board.get (ship.position.addDir Direction.North)).halite := hle'
        have := hmax Direction.North
        omega
      · have h2 : (g.board.get ship.position).halite ≤
            (g.board.get (ship.position.addDir Direction.East)).halite := hle'
        have := hmax Direction.East
        omega
      · have h2 : (g.board.get ship.position).halite ≤
            (g.board.get (ship.position.addDir Direction.South)).halite := hle'
        have := hmax Direction.South
        omega
      · have h2 : (g.board.get ship.position).halite ≤
            (g.board.get (ship.position.addDir Direction.West)).halite := hle'
        have := hmax Direction.West
        omega
      · exact hne rfl
    rw [hS, hyC] at hnav
    rw [List.find?_cons_of_pos _ (by simp [hcur])] at hnav
    exact hnav

/-- C5 counterexample: in `exGameNav` ship 0's own (unstamped, hence
unoccupied) cell has strictly the most halite, so the heuristic returns
`none` ("stay") even though the adjacent North cell is unoccupied — the
claim's "returns none exactly when all four adjacent cells are occupied"
fails, and only a five-cell candidate set (not four) explains the result. -/
theorem c5_navigate_counterexample :
    exGameNav.navigate_to_halite 0 = some none ∧
    (exGameNav.board.get ((⟨0, 0⟩ : Position).addDir .North)).is_occupied = false := by
  refine ⟨?_, by decide⟩
  exact navigate_stay_of_current_max exGameNav 0 ⟨0, 0, ⟨0, 0⟩, 0⟩ (by decide) (by decide)
    (by intro d; cases d <;> decide)

/-- Witness for C5 on `exGameNav2` (ship 0 stamped at (1, 1)). -/
theorem c5_navigate_to_halite_witness :
    (mapLookup 0 exGameNav2.ships = some ⟨0, 0, ⟨1, 1⟩, 0⟩ ∧
      (exGameNav2.board.get (⟨1, 1⟩ : Position)).is_occupied = true) ∧
    ((exGameNav2.navigate_to_halite 0 = some none ↔
      ∀ d : Direction,
        (exGameNav2.board.get ((⟨1, 1⟩ : Position).addDir d)).is_occupied = true) ∧
    (∀ d : Direction, exGameNav2.navigate_to_halite 0 = some (some d) →
      (exGameNav2.board.get ((⟨1, 1⟩ : Position).addDir d)).is_occupied = false ∧
      (∀ d' : Direction,
        (exGameNav2.board.get ((⟨1, 1⟩ : Position).addDir d')).is_occupied = false →
        (exGameNav2.board.get ((⟨1, 1⟩ : Position).addDir d')).halite ≤
          (exGameNav2.board.get ((⟨1, 1⟩ : Position).addDir d)).halite) ∧
      (∀ d' : Direction,
        (exGameNav2.board.get ((⟨1, 1⟩ : Position).addDir d')).is_occupied = false →
        (exGameNav2.board.get ((⟨1, 1⟩ : Position).addDir d')).halite =
          (exGameNav2.board.get ((⟨1, 1⟩ : Position).addDir d)).halite →
        dirIdx d ≤ dirIdx d'))) :=
  ⟨⟨by decide, by decide⟩,
    c5_navigate_to_halite exGameNav2 0 ⟨0, 0, ⟨1, 1⟩, 0⟩ (by decide) (by decide)⟩

/-! ### C8 -/

theorem mapInsert_isSome_iff (k k' : Nat) (v : α) (m : List (Nat × α))
    (hk' : (mapLookup k' m).isSome) :
    (mapLookup k (mapInsert k' v m)).isSome = (mapLookup k m).isSome := by
  by_cases hkk : k = k'
  · subst hkk
    rw [mapLookup_insert_self]
    simp [hk']
  · rw [mapLookup_insert_ne _ _ _ _ hkk]

theorem processSections_ok : ∀ (secs : List PlayerDump) (oldS : List (Nat × Ship))
    (oldD : List (Nat × Dropoff)) (g : Game),
    (∀ sec ∈ secs, (mapLookup sec.id g.players).isSome) →
    ∃ g', processSections secs oldS oldD g = .ok g'
  | [], _, _, g, _ => ⟨g, rfl⟩
  | sec :: rest, oldS, oldD, g, hall => by
    have hsec := hall sec (List.mem_cons_self sec rest)
    rcases hp : mapLookup sec.id g.players with _ | player
    · rw [hp] at hsec
      cases hsec
    · rw [processSections, hp]
      apply processSections_ok
      intro sec' hsec'
      rw [mapInsert_isSome_iff _ _ _ _ (by simp [hp])]
      exact hall sec' (List.mem_cons_of_mem sec hsec')

theorem processSections_unknown : ∀ (secs : List PlayerDump) (oldS : List (Nat × Ship))
    (oldD : List (Nat × Dropoff)) (g : Game),
    (∃ sec ∈ secs, mapLookup sec.id g.players = none) →
    ∃ pid, processSections secs oldS oldD g = .error (.unknownPlayer pid)
  | [], _, _, _, h => by
    obtain ⟨sec, hmem, _⟩ := h
    cases hmem
  | sec :: rest, oldS, oldD, g, h => by
    rcases hp : mapLookup sec.id g.players with _ | player
    · exact ⟨sec.id, by rw [processSections, hp]⟩
    · obtain ⟨sec₀, hmem, hnone⟩ := h
      rcases List.mem_cons.mp hmem with rfl | hmem
      · rw [hp] at hnone
        cases hnone
      · rw [processSections, hp]

        apply processSections_unknown
        refine ⟨sec₀, hmem, ?_⟩
        have hne : sec₀.id ≠ sec.id := by
          intro heq
          rw [heq, hp] at hnone
          cases hnone
        rw [mapLookup_insert_ne _ _ _ _ hne]
        exact hnone

theorem stampShips_error_kind :
    ∀ (ships : List (Nat × Ship)) (ids : List Nat) (b : Board) (e : UpdateError),
      stampShips ships ids b = .error e → e = .missingEntity
  | _, [], _, _, h => by cases h
  | ships, i :: rest, b, e, h => by
    rw [stampShips] at h
    rcases hl : mapLookup i ships with _ | sh
    · rw [hl] at h
      injection h with h
      exact h.symm
    · rw [hl] at h
      exact stampShips_error_kind ships rest _ e h

theorem stampDropoffs_error_kind :
    ∀ (dropoffs : List (Nat × Dropoff)) (ids : List Nat) (b : Board) (e : UpdateError),
      stampDropoffs dropoffs ids b = .error e → e = .missingEntity
  | _, [], _, _, h => by cases h
  | dropoffs, i :: rest, b, e, h => by
    rw [stampDropoffs] at h
    rcases hl : mapLookup i dropoffs with _ | dr
    · rw [hl] at h
      injection h with h
      exact h.symm
    · rw [hl] at h
      exact stampDropoffs_error_kind dropoffs rest _ e h

theorem stampPlayers_error_kind :
    ∀ (ships : List (Nat × Ship)) (dropoffs : List (Nat × Dropoff))
      (pls : List (Nat × Player)) (b : Board) (e : UpdateError),
      stampPlayers ships dropoffs pls b = .error e → e = .missingEntity
  | _, _, [], _, _, h => by cases h
  | ships, dropoffs, pl :: rest, b, e, h => by
    rw [stampPlayers] at h
    rcases hs : stampShips ships pl.2.ship_ids
        (b.modifyCell pl.2.shipyard.position
          fun c => { c with struct := some (.Shipyard pl.2.shipyard.id) }) with e' | b'
    · rw [hs] at h
      injection h with h
      rw [← h]
      exact stampShips_error_kind _ _ _ _ hs
    · rw [hs] at h
      replace h : (match stampDropoffs dropoffs pl.2.dropoff_ids b' with
          | .error err => (Except.error err : Except UpdateError Board)
          | .ok bb => stampPlayers ships dropoffs rest bb) = .error e := h
      rcases hd : stampDropoffs dropoffs pl.2.dropoff_ids b' with e'' | b''
      · rw [hd] at h
        injection h with h
        rw [← h]
        exact stampDropoffs_error_kind _ _ _ _ hd
      · rw [hd] at h
        exact stampPlayers_error_kind ships dropoffs rest b'' e h

theorem update_tail_error_kind (g2 : Game) (cu : List (Position × Nat)) (e : UpdateError) :
    Game.update_tail g2 cu = .error e → e = .missingEntity := by
  intro h
  simp only [Game.update_tail] at h
  rcases hst : stampPlayers g2.ships g2.dropoffs g2.players
      (g2.board.update_from_engine cu) with e' | b
  · rw [hst] at h
    injection h with h
    rw [← h]
    exact stampPlayers_error_kind _ _ _ _ _ hst
  · rw [hst] at h
    cases h

/-- C8: if a player id decoded during the per-turn update does not match any
player known since game start, the update fails with the fatal
unknown-player error; if every decoded player id is known, no such error is
raised (the update either succeeds or fails with the distinct
missing-entity fault of the occupancy re-stamping, never with
`unknownPlayer`). -/
theorem c8_unknown_player_fatal (g : Game) (dump : TurnDump) :
    ((∃ sec ∈ dump.players, mapLookup sec.id g.players = none) →
      ∃ pid, g.update_from_engine dump = .error (.unknownPlayer pid)) ∧
    ((∀ sec ∈ dump.players, (mapLookup sec.id g.players).isSome) →
      ∀ pid, g.update_from_engine dump ≠ .error (.unknownPlayer pid)) := by
  constructor
  · intro hex
    obtain ⟨pid, hrun⟩ := processSections_unknown dump.players g.ships g.dropoffs
      { g with turn := dump.turn, ships := [], dropoffs := [], commands := [] } hex
    refine ⟨pid, ?_⟩
    simp only [Game.update_from_engine]
    rw [hrun]
  · intro hall pid
    obtain ⟨g', hrun⟩ := processSections_ok dump.players g.ships g.dropoffs
      { g with turn := dump.turn, ships := [], dropoffs := [], commands := [] } hall
    simp only [Game.update_from_engine]
    rw [hrun]
    intro hcon
    have := update_tail_error_kind g' dump.cellUpdates _ hcon
    cases this

/-- Witness for C8: the unknown-player dump fails fatally on the concrete
game, the all-known dump never raises the unknown-player error. -/
theorem c8_unknown_player_fatal_witness :
    ((∃ sec ∈ exDumpUnknown.players, mapLookup sec.id exGameSpawn.players = none) ∧
      (∀ sec ∈ exDumpKnown.players, (mapLookup sec.id exGameSpawn.players).isSome)) ∧
    ((∃ pid, exGameSpawn.update_from_engine exDumpUnknown =
        .error (.unknownPlayer pid)) ∧
      (∀ pid, exGameSpawn.update_from_engine exDumpKnown ≠
        .error (.unknownPlayer pid))) :=
  ⟨⟨by decide, by decide⟩,
    ⟨(c8_unknown_player_fatal exGameSpawn exDumpUnknown).1 (by decide),
      (c8_unknown_player_fatal exGameSpawn exDumpKnown).2 (by decide)⟩⟩

/-! ### C1: list and map helpers -/

theorem mapLookup_mem : ∀ (m : List (Nat × α)) (k : Nat) (v : α),
    mapLookup k m = some v → (k, v) ∈ m
  | [], _, _, h => by cases h
  | e :: rest, k, v, h => by
    rw [mapLookup] at h
    by_cases he : e.1 = k
    · rw [if_pos he] at h
      injection h with h
      subst h
      have hkv : (k, e.2) = e := by
        rw [← he]
      rw [hkv]
      exact List.mem_cons_self e rest
    · rw [if_neg he] at h
      exact List.mem_cons_of_mem e (mapLookup_mem rest k v h)

theorem filter_eq_nil_forall {p : α → Bool} : ∀ (l : List α), l.filter p = [] →
    ∀ x ∈ l, p x = false
  | [], _, x, hx => by cases hx
  | a :: l, h, x, hx => by
    rw [List.filter_cons] at h
    by_cases ha : p a = true
    · rw [if_pos ha] at h
      cases h
    · rw [if_neg ha] at h
      rcases List.mem_cons.mp hx with rfl | hx
      · simpa using ha
      · exact filter_eq_nil_forall l h x hx

theorem append_eq_singleton {a b : List α} {z : α} (h : a ++ b = [z]) :
    (a = [z] ∧ b = []) ∨ (a = [] ∧ b = [z]) := by
  cases a with
  | nil => exact Or.inr ⟨rfl, by simpa using h⟩
  | cons x xs =>
    rw [List.cons_append] at h
    injection h with h1 h2
    have h3 : xs = [] ∧ b = [] := List.append_eq_nil.mp h2
    exact Or.inl ⟨by rw [h1, h3.1], h3.2⟩

theorem mem_foldr_ships : ∀ (secs : List PlayerDump) (sec : PlayerDump) (s : ShipDump),
    sec ∈ secs → s ∈ sec.ships →
    s ∈ secs.foldr (fun sec acc => sec.ships ++ acc) []
  | sec' :: rest, sec, s, hmem, hs => by
    rw [List.foldr_cons]
    rcases List.mem_cons.mp hmem with rfl | hmem
    · exact List.mem_append_left _ hs
    · exact List.mem_append_right _ (mem_foldr_ships rest sec s hmem hs)

/-! ### C1: the ship loop of one player section -/

theorem processShips_not_listed (pid k : Nat) :
    ∀ (dumps : List ShipDump) (oldS ships : List (Nat × Ship)) (ids : List Nat)
      (o' s' : List (Nat × Ship)) (i' : List Nat),
      processShips pid dumps oldS ships ids = (o', s', i') →
      (∀ sd ∈ dumps, sd.id ≠ k) →
      mapLookup k s' = mapLookup k ships ∧ mapLookup k o' = mapLookup k oldS
  | [], oldS, ships, ids, o', s', i', h, _ => by
    rw [processShips] at h
    injection h with h1 h2
    injection h2 with h2 h3
    rw [← h1, ← h2]
    exact ⟨rfl, rfl⟩
  | sd :: rest, oldS, ships, ids, o', s', i', h, hne => by
    rw [processShips] at h
    have hsd : k ≠ sd.id := Ne.symm (hne sd (List.mem_cons_self _ _))
    have hne' : ∀ x ∈ rest, x.id ≠ k := fun x hx => hne x (List.mem_cons_of_mem _ hx)
    rcases hl : mapLookup sd.id oldS with _ | old
    · rw [hl] at h
      obtain ⟨h1, h2⟩ := processShips_not_listed pid k rest _ _ _ _ _ _ h hne'
      rw [h1, h2, mapLookup_insert_ne _ _ _ _ hsd]
      exact ⟨rfl, rfl⟩
    · rw [hl] at h
      obtain ⟨h1, h2⟩ := processShips_not_listed pid k rest _ _ _ _ _ _ h hne'
      rw [h1, h2, mapLookup_insert_ne _ _ _ _ hsd, mapLookup_insert_ne _ _ _ _ hsd]
      exact ⟨rfl, rfl⟩

theorem processShips_unique (pid k : Nat) (sd : ShipDump) (oldShip : Ship) :
    ∀ (dumps : List ShipDump) (oldS ships : List (Nat × Ship)) (ids : List Nat)
      (o' s' : List (Nat × Ship)) (i' : List Nat),
      processShips pid dumps oldS ships ids = (o', s', i') →
      dumps.filter (fun x => x.id == k) = [sd] →
      mapLookup k oldS = some oldShip →
      mapLookup k s' = some { oldShip with position := sd.position, halite := sd.halite }
  | [], _, _, _, _, _, _, _, hf, _ => by simp at hf
  | x :: rest, oldS, ships, ids, o', s', i', h, hf, hold => by
    rw [processShips] at h
    rw [List.filter_cons] at hf
    by_cases hx : (x.id == k) = true
    · rw [if_pos hx] at hf
      injection hf with hf1 hf2
      subst hf1
      have hxk : x.id = k := by simpa using hx
      rw [← hxk] at hold
      rw [hold] at h
      have hrest : ∀ y ∈ rest, y.id ≠ k := by
        intro y hy
        have := filter_eq_nil_forall rest hf2 y hy
        simpa using this
      obtain ⟨h1, _⟩ := processShips_not_listed pid k rest _ _ _ _ _ _ h hrest
      rw [h1, ← hxk, mapLookup_insert_self]
    · rw [if_neg hx] at hf
      have hxk : k ≠ x.id := by
        intro hk
        exact hx (by simp [hk])
      rcases hl : mapLookup x.id oldS with _ | old
      · rw [hl] at h
        exact processShips_unique pid k sd oldShip rest _ _ _ _ _ _ h hf hold
      · rw [hl] at h
        refine processShips_unique pid k sd oldShip rest _ _ _ _ _ _ h hf ?_
        rw [mapLookup_insert_ne _ _ _ _ hxk]
        exact hold

/-! ### C1: the player-section loop -/

theorem processSections_ships_pres (k : Nat) :
    ∀ (secs : List PlayerDump) (oldS : List (Nat × Ship)) (oldD : List (Nat × Dropoff))
      (g1 g2 : Game),
      processSections secs oldS oldD g1 = .ok g2 →
      (∀ sec ∈ secs, ∀ s ∈ sec.ships, s.id ≠ k) →
      mapLookup k g2.ships = mapLookup k g1.ships
  | [], _, _, g1, g2, h, _ => by
    rw [processSections] at h
    injection h with h
    rw [← h]
  | sec :: rest, oldS, oldD, g1, g2, h, hne => by
    rw [processSections] at h
    rcases hp : mapLookup sec.id g1.players with _ | player
    · rw [hp] at h
      cases h
    · rw [hp] at h
      rcases hps : processShips sec.id sec.ships oldS g1.ships [] with
        ⟨oldS', ships', ship_ids⟩
      rcases hpd : processDropoffs sec.id sec.dropoffs oldD g1.dropoffs [] with
        ⟨oldD', dropoffs', dropoff_ids⟩
      rw [hps, hpd] at h
      have hsec : ∀ s ∈ sec.ships, s.id ≠ k := hne sec (List.mem_cons_self _ _)
      obtain ⟨h1, _⟩ := processShips_not_listed sec.id k sec.ships oldS g1.ships [] _ _ _
        hps hsec
      have ih := processSections_ships_pres k rest oldS' oldD' _ g2 h
        (fun sec' hs => hne sec' (List.mem_cons_of_mem _ hs))
      rw [ih]
      exact h1

theorem processSections_live (k : Nat) (sd : ShipDump) (oldShip : Ship) :
    ∀ (secs : List PlayerDump) (oldS : List (Nat × Ship)) (oldD : List (Nat × Dropoff))
      (g1 g2 : Game),
      processSections secs oldS oldD g1 = .ok g2 →
      (secs.foldr (fun sec acc => sec.ships ++ acc) []).filter (fun x => x.id == k) =
        [sd] →
      mapLookup k oldS = some oldShip →
      mapLookup k g2.ships =
        some { oldShip with position := sd.position, halite := sd.halite }
  | [], _, _, _, _, _, hf, _ => by simp at hf
  | sec :: rest, oldS, oldD, g1, g2, h, hf, hold => by
    rw [processSections] at h
    rcases hp : mapLookup sec.id g1.players with _ | player
    · rw [hp] at h
      cases h
    · rw [hp] at h
      rcases hps : processShips sec.id sec.ships oldS g1.ships [] with
        ⟨oldS', ships', ship_ids⟩
      rcases hpd : processDropoffs sec.id sec.dropoffs oldD g1.dropoffs [] with
        ⟨oldD', dropoffs', dropoff_ids⟩
      rw [hps, hpd] at h
      rw [List.foldr_cons, List.filter_append] at hf
      rcases append_eq_singleton hf with ⟨hf1, hf2⟩ | ⟨hf1, hf2⟩
      · have hships := processShips_unique sec.id k sd oldShip sec.ships oldS g1.ships []
          _ _ _ hps hf1 hold
        have hrest : ∀ sec' ∈ rest, ∀ s ∈ sec'.ships, s.id ≠ k := by
          intro sec' hs s hss
          have hmem := mem_foldr_ships rest sec' s hs hss
          have := filter_eq_nil_forall _ hf2 s hmem
          simpa using this
        have hpres := processSections_ships_pres k rest oldS' oldD' _ g2 h hrest
        rw [hpres]
        exact hships
      · have hsec : ∀ s ∈ sec.ships, s.id ≠ k := by
          intro s hs
          have := filter_eq_nil_forall _ hf1 s hs
          simpa using this
        obtain ⟨_, h2⟩ := processShips_not_listed sec.id k sec.ships oldS g1.ships [] _ _ _
          hps hsec
        refine processSections_live k sd oldShip rest oldS' oldD' _ g2 h hf2 ?_
        rw [h2]
        exact hold

/-! ### C1: stamping success facts -/

theorem stampShips_ok_lookup :
    ∀ (ships : List (Nat × Ship)) (ids : List Nat) (b b' : Board),
      stampShips ships ids b = .ok b' → ∀ i ∈ ids, (mapLookup i ships).isSome = true
  | _, [], _, _, _ => by
    intro i hi
    cases hi
  | ships, j :: rest, b, b', h => by
    intro i hi
    rw [stampShips] at h
    rcases hl : mapLookup j ships with _ | sh
    · rw [hl] at h
      cases h
    · rw [hl] at h
      rcases List.mem_cons.mp hi with rfl | hi
      · simp [hl]
      · exact stampShips_ok_lookup ships rest _ b' h i hi

theorem stampPlayers_ok_lookup :
    ∀ (ships : List (Nat × Ship)) (dropoffs : List (Nat × Dropoff))
      (pls : List (Nat × Player)) (b b' : Board),
      stampPlayers ships dropoffs pls b = .ok b' →
      ∀ e ∈ pls, ∀ i ∈ e.2.ship_ids, (mapLookup i ships).isSome = true
  | _, _, [], _, _, _ => by
    intro e he
    cases he
  | ships, dropoffs, pl :: rest, b, b', h => by
    intro e he i hi
    rw [stampPlayers] at h
    rcases hs : stampShips ships pl.2.ship_ids
        (b.modifyCell pl.2.shipyard.position
          fun c => { c with struct := some (.Shipyard pl.2.shipyard.id) }) with e' | b1
    · rw [hs] at h
      cases h
    · rw [hs] at h
      replace h : (match stampDropoffs dropoffs pl.2.dropoff_ids b1 with
          | .error err => (Except.error err : Except UpdateError Board)
          | .ok bb => stampPlayers ships dropoffs rest bb) = .ok b' := h
      rcases hd : stampDropoffs dropoffs pl.2.dropoff_ids b1 with e'' | b2
      · rw [hd] at h
        cases h
      · rw [hd] at h
        rcases List.mem_cons.mp he with rfl | he
        · exact stampShips_ok_lookup ships e.2.ship_ids _ b1 hs i hi
        · exact stampPlayers_ok_lookup ships dropoffs rest b2 b' h e he i hi

/-! ### C1: the board occupancy invariant -/

theorem getD_prop {P : α → Prop} : ∀ (l : List α) (n : Nat) (d : α),
    (∀ x ∈ l, P x) → P d → P (l.getD n d)
  | [], n, d, _, hd => by
    rw [List.getD_eq_getElem?_getD]
    cases n <;> exact hd
  | x :: xs, 0, d, hl, _ => by
    rw [List.getD_cons_zero]
    exact hl x (List.mem_cons_self x xs)
  | x :: xs, n + 1, d, hl, hd => by
    rw [List.getD_cons_succ]
    exact getD_prop xs n d (fun y hy => hl y (List.mem_cons_of_mem x hy)) hd

theorem board_get_ship_prop (Q : Option Nat → Prop) (b : Board) (hQ : Q none)
    (hcells : ∀ row ∈ b.cells, ∀ c ∈ row, Q c.ship) (p : Position) :
    Q ((b.get p).ship) := by
  unfold Board.get
  have hrow : ∀ c ∈ b.cells.getD ((p.normalized b.width b.height).y.toNat) [],
      Q c.ship :=
    getD_prop (P := fun (row : List Cell) => ∀ c ∈ row, Q c.ship) b.cells _ [] hcells
      (by intro c hc; cases hc)
  exact getD_prop (P := fun (c : Cell) => Q c.ship) _ _ _ hrow hQ

theorem cells_prop_modifyCell (Q : Option Nat → Prop) (b : Board) (p : Position)
    (f : Cell → Cell) (hcells : ∀ row ∈ b.cells, ∀ c ∈ row, Q c.ship)
    (hf : ∀ c, Q c.ship → Q (f c).ship) :
    ∀ row ∈ (b.modifyCell p f).cells, ∀ c ∈ row, Q c.ship := by
  intro row hrow c hc
  unfold Board.modifyCell at hrow
  rcases modifyIdx_mem _ _ _ _ hrow with hr | ⟨r0, hr0, rfl⟩
  · exact hcells row hr c hc
  · rcases modifyIdx_mem f _ r0 c hc with hcm | ⟨c0, hc0, rfl⟩
    · exact hcells r0 hr0 c hcm
    · exact hf c0 (hcells r0 hr0 c0 hc0)

theorem cells_prop_clearShips (Q : Option Nat → Prop) (hQ : Q none) (b : Board) :
    ∀ row ∈ b.clearShips.cells, ∀ c ∈ row, Q c.ship := by
  intro row hrow c hc
  unfold Board.clearShips at hrow
  simp only [List.mem_map] at hrow
  obtain ⟨r0, _, rfl⟩ := hrow
  simp only [List.mem_map] at hc
  obtain ⟨c0, _, rfl⟩ := hc
  exact hQ

theorem cells_prop_board_update (Q : Option Nat → Prop) (hQ : Q none) (b : Board)
    (updates : List (Position × Nat)) :
    ∀ row ∈ (b.update_from_engine updates).cells, ∀ c ∈ row, Q c.ship := by
  unfold Board.update_from_engine
  have haux : ∀ (us : List (Position × Nat)) (b0 : Board),
      (∀ row ∈ b0.cells, ∀ c ∈ row, Q c.ship) →
      ∀ row ∈ (us.foldl
          (fun b u => b.modifyCell u.1 fun c => { c with halite := u.2 }) b0).cells,
        ∀ c ∈ row, Q c.ship := by
    intro us
    induction us with
    | nil =>
      intro b0 h
      simpa using h
    | cons u us ih =>
      intro b0 h
      rw [List.foldl_cons]
      exact ih _ (cells_prop_modifyCell Q b0 u.1 _ h fun c hc => hc)
  exact haux updates b.clearShips (cells_prop_clearShips Q hQ b)

theorem cells_prop_stampShips (Q : Option Nat → Prop) :
    ∀ (ships : List (Nat × Ship)) (ids : List Nat) (b b' : Board),
      stampShips ships ids b = .ok b' →
      (∀ i sh, mapLookup i ships = some sh → Q (some i)) →
      (∀ row ∈ b.cells, ∀ c ∈ row, Q c.ship) →
      ∀ row ∈ b'.cells, ∀ c ∈ row, Q c.ship
  | _, [], b, b', h, _, hcells => by
    injection h with h
    rw [← h]
    exact hcells
  | ships, j :: rest, b, b', h, hQs, hcells => by
    rw [stampShips] at h
    rcases hl : mapLookup j ships with _ | sh
    · rw [hl] at h
      cases h
    · rw [hl] at h
      refine cells_prop_stampShips Q ships rest _ b' h hQs ?_
      exact cells_prop_modifyCell Q b sh.position _ hcells fun c _ => hQs j sh hl

theorem cells_prop_stampDropoffs (Q : Option Nat → Prop) :
    ∀ (dropoffs : List (Nat × Dropoff)) (ids : List Nat) (b b' : Board),
      stampDropoffs dropoffs ids b = .ok b' →
      (∀ row ∈ b.cells, ∀ c ∈ row, Q c.ship) →
      ∀ row ∈ b'.cells, ∀ c ∈ row, Q c.ship
  | _, [], b, b', h, hcells => by
    injection h with h
    rw [← h]
    exact hcells
  | dropoffs, j :: rest, b, b', h, hcells => by
    rw [stampDropoffs] at h
    rcases hl : mapLookup j dropoffs with _ | dr
    · rw [hl] at h
      cases h
    · rw [hl] at h
      refine cells_prop_stampDropoffs Q dropoffs rest _ b' h ?_
      exact cells_prop_modifyCell Q b dr.position _ hcells fun c hc => hc

theorem cells_prop_stampPlayers (Q : Option Nat → Prop) :
    ∀ (ships : List (Nat × Ship)) (dropoffs : List (Nat × Dropoff))
      (pls : List (Nat × Player)) (b b' : Board),
      stampPlayers ships dropoffs pls b = .ok b' →
      (∀ i sh, mapLookup i ships = some sh → Q (some i)) →
      (∀ row ∈ b.cells, ∀ c ∈ row, Q c.ship) →
      ∀ row ∈ b'.cells, ∀ c ∈ row, Q c.ship
  | _, _, [], b, b', h, _, hcells => by
    injection h with h
    rw [← h]
    exact hcells
  | ships, dropoffs, pl :: rest, b, b', h, hQs, hcells => by
    rw [stampPlayers] at h
    rcases hs : stampShips ships pl.2.ship_ids
        (b.modifyCell pl.2.shipyard.position
          fun c => { c with struct := some (.Shipyard pl.2.shipyard.id) }) with e' | b1
    · rw [hs] at h
      cases h
    · rw [hs] at h
      replace h : (match stampDropoffs dropoffs pl.2.dropoff_ids b1 with
          | .error err => (Except.error err : Except UpdateError Board)
          | .ok bb => stampPlayers ships dropoffs rest bb) = .ok b' := h
      rcases hd : stampDropoffs dropoffs pl.2.dropoff_ids b1 with e'' | b2
      · rw [hd] at h
        cases h
      · rw [hd] at h
        refine cells_prop_stampPlayers Q ships dropoffs rest b2 b' h hQs ?_
        refine cells_prop_stampDropoffs Q dropoffs pl.2.dropoff_ids b1 b2 hd ?_
        refine cells_prop_stampShips Q ships pl.2.ship_ids _ b1 hs hQs ?_
        exact cells_prop_modifyCell Q b pl.2.shipyard.position _ hcells fun c hc => hc

/-! ### C1: dissecting the update -/

theorem update_tail_ok (g2 : Game) (cu : List (Position × Nat)) (g' : Game)
    (h : g2.update_tail cu = .ok g') :
    g'.ships = g2.ships ∧ g'.players = g2.players ∧
    ∃ b', stampPlayers g2.ships g2.dropoffs g2.players
        (g2.board.update_from_engine cu) = .ok b' ∧ g'.board = b' := by
  simp only [Game.update_tail] at h
  rcases hst : stampPlayers g2.ships g2.dropoffs g2.players
      (g2.board.update_from_engine cu) with e | b'
  · rw [hst] at h
    cases h
  · rw [hst] at h
    injection h with h
    subst h
    exact ⟨rfl, rfl, b', rfl, rfl⟩

theorem update_from_engine_ok (g : Game) (dump : TurnDump) (g' : Game)
    (h : g.update_from_engine dump = .ok g') :
    ∃ g2, processSections dump.players g.ships g.dropoffs
        { g with turn := dump.turn, ships := [], dropoffs := [], commands := [] } =
          .ok g2 ∧
      g2.update_tail dump.cellUpdates = .ok g' := by
  simp only [Game.update_from_engine] at h
  rcases hps : processSections dump.players g.ships g.dropoffs
      { g with turn := dump.turn, ships := [], dropoffs := [], commands := [] } with
    e | g2
  · rw [hps] at h
    cases h
  · rw [hps] at h
    exact ⟨g2, rfl, h⟩

/-! ### C1 -/

/-- C1: for every game state and turn dump that the reconciler's update
processes successfully — a ship id present in turn N (`sDead` in the ship
map) and absent from every ship line of the turn N+1 dump does not appear in
the reconciled ship map or any player's ship-id list afterwards, and no
board cell carries that ship's occupancy (in particular not its former
cell); a ship id present in both turns (`sLive`, listed exactly once in the
dump) retains its identifier and record, with exactly its position and
halite updated to the dump's reported values — all other fields of the
record, i.e. any client-attached state on it, survive unchanged. -/
theorem c1_turn_reconciliation (g : Game) (dump : TurnDump) (g' : Game)
    (sDead sLive : Nat) (oldShip : Ship) (sd : ShipDump)
    (hup : g.update_from_engine dump = .ok g')
    (hdead1 : (mapLookup sDead g.ships).isSome = true)
    (hdead2 : ∀ sec ∈ dump.players, ∀ s ∈ sec.ships, s.id ≠ sDead)
    (hlive : mapLookup sLive g.ships = some oldShip)
    (hocc : (allShips dump).filter (fun s => s.id == sLive) = [sd]) :
    mapLookup sDead g'.ships = none ∧
    (∀ pid pl, mapLookup pid g'.players = some pl → sDead ∉ pl.ship_ids) ∧
    (∀ p : Position, (g'.board.get p).ship ≠ some sDead) ∧
    mapLookup sLive g'.ships =
      some { oldShip with position := sd.position, halite := sd.halite } := by
  obtain ⟨g2, hps, htail⟩ := update_from_engine_ok g dump g' hup
  obtain ⟨hships, hplayers, b', hst, hboard⟩ := update_tail_ok g2 dump.cellUpdates g' htail
  have hdead_ships : mapLookup sDead g2.ships = none := by
    have hpres := processSections_ships_pres sDead dump.players g.ships g.dropoffs _ g2
      hps hdead2
    rw [hpres]
    rfl
  refine ⟨?_, ?_, ?_, ?_⟩
  · rw [hships]
    exact hdead_ships
  · intro pid pl hpl hmem
    rw [hplayers] at hpl
    have hentry := mapLookup_mem _ _ _ hpl
    have hsome := stampPlayers_ok_lookup g2.ships g2.dropoffs g2.players _ b' hst
      (pid, pl) hentry sDead hmem
    rw [hdead_ships] at hsome
    cases hsome
  · intro p hcon
    have hinv : ∀ row ∈ b'.cells, ∀ c ∈ row,
        (∀ j, c.ship = some j → (mapLookup j g2.ships).isSome = true) := by
      refine cells_prop_stampPlayers
        (Q := fun os => ∀ j, os = some j → (mapLookup j g2.ships).isSome = true)
        g2.ships g2.dropoffs g2.players _ b' hst ?_ ?_
      · intro i sh hl j hj
        injection hj with hj
        rw [← hj, hl]
        rfl
      · refine cells_prop_board_update
          (fun os => ∀ j, os = some j → (mapLookup j g2.ships).isSome = true) ?_
          g2.board dump.cellUpdates
        intro j hj
        cases hj
    have hget := board_get_ship_prop
      (Q := fun os => ∀ j, os = some j → (mapLookup j g2.ships).isSome = true) b'
      (by intro j hj; cases hj) hinv p
    rw [hboard] at hcon
    have h2 := hget sDead hcon
    rw [hdead_ships] at h2
    cases h2
  · rw [hships]
    exact processSections_live sLive sd oldShip dump.players g.ships g.dropoffs _ g2
      hps hocc hlive

/-- Witness for C1 on the concrete game `exGameC1` and dump `exDumpC1`:
ship 1 disappears, ship 2 persists moving to (0, 1) with 7 halite. -/
theorem c1_turn_reconciliation_witness :
    (exGameC1.update_from_engine exDumpC1 = .ok exGameC1' ∧
      (mapLookup 1 exGameC1.ships).isSome = true ∧
      (∀ sec ∈ exDumpC1.players, ∀ s ∈ sec.ships, s.id ≠ 1) ∧
      mapLookup 2 exGameC1.ships = some ⟨2, 0, ⟨1, 0⟩, 5⟩ ∧
      (allShips exDumpC1).filter (fun s => s.id == 2) = [⟨2, ⟨0, 1⟩, 7⟩]) ∧
    (mapLookup 1 exGameC1'.ships = none ∧
      (∀ pid pl, mapLookup pid exGameC1'.players = some pl → 1 ∉ pl.ship_ids) ∧
      (∀ p : Position, (exGameC1'.board.get p).ship ≠ some 1) ∧
      mapLookup 2 exGameC1'.ships = some (⟨2, 0, ⟨0, 1⟩, 7⟩ : Ship)) :=
  ⟨⟨rfl, by decide, by decide, by decide, by decide⟩,
    c1_turn_reconciliation exGameC1 exDumpC1 exGameC1' 1 2 ⟨2, 0, ⟨1, 0⟩, 5⟩
      ⟨2, ⟨0, 1⟩, 7⟩ rfl (by decide) (by decide) (by decide) (by decide)⟩

end Hlt
